import Mathlib

/-!
# Verification of the gautham token store

A shallow embedding of the `token` and `serializer` packages of the
`rrm80/gautham` repository, together with proofs about the embedded
operations.

Modelling conventions:

* Go byte strings (`string`, `[]byte`) are `List ℕ` with entries below 256.
* Go `int64` / `time.Duration` values are `ℤ` (overflow is out of scope for
  the claims considered; all concrete instances stay far inside the range).
* Calls to the clock (`time.Now`), the random source (`uuid.New`,
  namespace generation) and the external parsers (`net.ParseIP`,
  `uap-go`) are threaded through as explicit parameters.
* The msgpack binary codec used by the repository is a third-party library
  (`vmihailenco/msgpack`), not part of the repository sources; it is
  modelled from the specification (spec §4.1: nil, signed integers,
  strings, byte strings, flat maps keyed by short strings; nil is the
  single byte 0xC0) together with the public msgpack format.
* A Go nil-pointer dereference (reached when a method is invoked on an
  absent backend handle) is modelled by the dedicated outcome
  `Res.nilDeref`.
-/

namespace Gautham

/-! ## Bytes and base64url (RFC 4648 URL-safe alphabet, no padding)

Models Go's `base64.RawURLEncoding` as used by `makeStorageKey` and the
serializer. -/

/-- The URL-safe base64 alphabet, as a byte value for each 6-bit index. -/
def b64char (i : ℕ) : ℕ :=
  if i < 26 then 65 + i
  else if i < 52 then 97 + (i - 26)
  else if i < 62 then 48 + (i - 52)
  else if i = 62 then 45
  else 95

/-- Inverse of the alphabet: byte value back to 6-bit index. -/
def b64val (c : ℕ) : Option ℕ :=
  if 65 ≤ c ∧ c ≤ 90 then some (c - 65)
  else if 97 ≤ c ∧ c ≤ 122 then some (26 + (c - 97))
  else if 48 ≤ c ∧ c ≤ 57 then some (52 + (c - 48))
  else if c = 45 then some 62
  else if c = 95 then some 63
  else none

/-- base64url encoding without padding, three input bytes per four output
bytes, partial final group as in `base64.RawURLEncoding.EncodeToString`. -/
def b64encode : List ℕ → List ℕ
  | [] => []
  | [a] => [b64char (a / 4), b64char (a % 4 * 16)]
  | [a, b] => [b64char (a / 4), b64char (a % 4 * 16 + b / 16), b64char (b % 16 * 4)]
  | a :: b :: c :: rest =>
      b64char (a / 4) :: b64char (a % 4 * 16 + b / 16) ::
        b64char (b % 16 * 4 + c / 64) :: b64char (c % 64) :: b64encode rest

/-- base64url decoding without padding, as `base64.RawURLEncoding.DecodeString`:
a final group of one byte is malformed, trailing bits are ignored
(non-strict mode, as in Go's default decoder). -/
def b64decode : List ℕ → Option (List ℕ)
  | [] => some []
  | [_] => none
  | [c1, c2] => do
      let x ← b64val c1
      let y ← b64val c2
      pure [x * 4 + y / 16]
  | [c1, c2, c3] => do
      let x ← b64val c1
      let y ← b64val c2
      let z ← b64val c3
      pure [x * 4 + y / 16, y % 16 * 16 + z / 4]
  | c1 :: c2 :: c3 :: c4 :: rest => do
      let x ← b64val c1
      let y ← b64val c2
      let z ← b64val c3
      let w ← b64val c4
      let tail ← b64decode rest
      pure ((x * 4 + y / 16) :: (y % 16 * 16 + z / 4) :: (z % 4 * 64 + w) :: tail)

theorem b64val_b64char : ∀ i < 64, b64val (b64char i) = some i := by decide

theorem b64_roundtrip : ∀ b : List ℕ, (∀ x ∈ b, x < 256) →
    b64decode (b64encode b) = some b := by
  intro b
  induction b using b64encode.induct with
  | case1 => intro _; simp [b64encode, b64decode]
  | case2 a =>
      intro h
      have ha : a < 256 := h a (by simp)
      have h1 : a / 4 < 64 := by omega
      have h2 : a % 4 * 16 < 64 := by omega
      simp only [b64encode, b64decode, b64val_b64char _ h1, b64val_b64char _ h2,
        Option.bind_eq_bind, Option.some_bind, Option.pure_def, Option.some.injEq,
        List.cons.injEq, and_true]
      omega
  | case3 a b =>
      intro h
      have ha : a < 256 := h a (by simp)
      have hb : b < 256 := h b (by simp)
      have h1 : a / 4 < 64 := by omega
      have h2 : a % 4 * 16 + b / 16 < 64 := by omega
      have h3 : b % 16 * 4 < 64 := by omega
      simp only [b64encode, b64decode, b64val_b64char _ h1, b64val_b64char _ h2,
        b64val_b64char _ h3, Option.bind_eq_bind, Option.some_bind, Option.pure_def,
        Option.some.injEq, List.cons.injEq, and_true]
      omega
  | case4 a b c rest ih =>
      intro h
      have ha : a < 256 := h a (by simp)
      have hb : b < 256 := h b (by simp)
      have hc : c < 256 := h c (by simp)
      have h1 : a / 4 < 64 := by omega
      have h2 : a % 4 * 16 + b / 16 < 64 := by omega
      have h3 : b % 16 * 4 + c / 64 < 64 := by omega
      have h4 : c % 64 < 64 := by omega
      have hrest : b64decode (b64encode rest) = some rest := by
        refine ih ?_
        intro x hx
        exact h x (by simp [hx])
      simp only [b64encode, b64decode, b64val_b64char _ h1, b64val_b64char _ h2,
        b64val_b64char _ h3, b64val_b64char _ h4, hrest,
        Option.bind_eq_bind, Option.some_bind, Option.pure_def, Option.some.injEq,
        List.cons.injEq, and_true]
      omega

/-! ## Binary codec (msgpack fragment)

Modelled from the spec: the binary object codec of §4.1 is provided by the
third-party `vmihailenco/msgpack` library, which is not part of this
repository's sources.  The fragment actually used by the repository is
modelled here from the spec's description ("nil, signed integers, strings,
byte strings, and fixed-size maps keyed by short strings; a single `0xC0`
byte for a nil value") together with the public msgpack format: positive /
negative fixint, uint8-64, int8-64, fixstr / str8-32, bin8-32, fixmap. -/

/-- Big-endian bytes of `n`, exactly `k` bytes (low bytes of `n` if it is
too large, as in a fixed-width store). -/
def beBytes : ℕ → ℕ → List ℕ
  | 0, _ => []
  | k + 1, n => beBytes k (n / 256) ++ [n % 256]

/-- Value of a big-endian byte string. -/
def beVal (l : List ℕ) : ℕ := l.foldl (fun acc b => acc * 256 + b) 0

/-- Read exactly `k` bytes from the front of a stream. -/
def readN : ℕ → List ℕ → Option (List ℕ × List ℕ)
  | 0, l => some ([], l)
  | _ + 1, [] => none
  | k + 1, x :: l => (readN k l).map fun p => (x :: p.1, p.2)

/-- Two's-complement reading of a `k`-byte unsigned value as a signed one. -/
def sdec (k : ℕ) (n : ℕ) : ℤ :=
  if n < 2 ^ (8 * k - 1) then (n : ℤ) else (n : ℤ) - 2 ^ (8 * k)

/-- Smallest-form msgpack encoding of a signed integer. -/
def encInt (i : ℤ) : List ℕ :=
  if 0 ≤ i then
    let n := i.toNat
    if n ≤ 127 then [n]
    else if n ≤ 255 then [0xCC, n]
    else if n ≤ 65535 then 0xCD :: beBytes 2 n
    else if n ≤ 4294967295 then 0xCE :: beBytes 4 n
    else 0xCF :: beBytes 8 n
  else
    let m := (-i).toNat
    if m ≤ 32 then [256 - m]
    else if m ≤ 128 then [0xD0, 256 - m]
    else if m ≤ 32768 then 0xD1 :: beBytes 2 (65536 - m)
    else if m ≤ 2147483648 then 0xD2 :: beBytes 4 (4294967296 - m)
    else 0xD3 :: beBytes 8 (18446744073709551616 - m)

/-- msgpack encoding of a string body (fixstr / str8 / str16 / str32). -/
def encStr (s : List ℕ) : List ℕ :=
  if s.length ≤ 31 then (0xA0 + s.length) :: s
  else if s.length ≤ 255 then 0xD9 :: s.length :: s
  else if s.length ≤ 65535 then 0xDA :: beBytes 2 s.length ++ s
  else 0xDB :: beBytes 4 s.length ++ s

/-- msgpack encoding of a byte string (bin8 / bin16 / bin32). -/
def encBin (b : List ℕ) : List ℕ :=
  if b.length ≤ 255 then 0xC4 :: b.length :: b
  else if b.length ≤ 65535 then 0xC5 :: beBytes 2 b.length ++ b
  else 0xC6 :: beBytes 4 b.length ++ b

/-- Primitive msgpack leaves used by the repository's records. -/
inductive MPV : Type
  | nil : MPV
  | int : ℤ → MPV
  | str : List ℕ → MPV
  | bin : List ℕ → MPV
deriving DecidableEq, Repr

/-- A msgpack object of the shape the repository stores: either a primitive
or a flat map from short string keys to primitive leaves. -/
inductive MP : Type
  | prim : MPV → MP
  | map : List (List ℕ × MPV) → MP
deriving DecidableEq, Repr

/-- Encode one primitive leaf. -/
def encMPV : MPV → List ℕ
  | .nil => [0xC0]
  | .int i => encInt i
  | .str s => encStr s
  | .bin b => encBin b

/-- Encode a msgpack object (fixmap for the map form; all maps written by
the repository have at most 7 entries). -/
def encMP : MP → List ℕ
  | .prim v => encMPV v
  | .map es => (0x80 + es.length) :: (es.map fun e => encStr e.1 ++ encMPV e.2).flatten

/-- Decode one primitive leaf from the front of a stream. -/
def decMPV : List ℕ → Option (MPV × List ℕ)
  | [] => none
  | t :: l =>
    if t < 128 then some (.int t, l)
    else if 224 ≤ t ∧ t ≤ 255 then some (.int ((t : ℤ) - 256), l)
    else if t = 0xC0 then some (.nil, l)
    else if t = 0xCC then
      match l with
      | n :: l' => some (.int n, l')
      | [] => none
    else if t = 0xCD then (readN 2 l).map fun p => (.int (beVal p.1), p.2)
    else if t = 0xCE then (readN 4 l).map fun p => (.int (beVal p.1), p.2)
    else if t = 0xCF then (readN 8 l).map fun p => (.int (beVal p.1), p.2)
    else if t = 0xD0 then
      match l with
      | n :: l' => some (.int (sdec 1 n), l')
      | [] => none
    else if t = 0xD1 then (readN 2 l).map fun p => (.int (sdec 2 (beVal p.1)), p.2)
    else if t = 0xD2 then (readN 4 l).map fun p => (.int (sdec 4 (beVal p.1)), p.2)
    else if t = 0xD3 then (readN 8 l).map fun p => (.int (sdec 8 (beVal p.1)), p.2)
    else if 0xA0 ≤ t ∧ t ≤ 0xBF then (readN (t - 0xA0) l).map fun p => (.str p.1, p.2)
    else if t = 0xD9 then
      match l with
      | n :: l' => (readN n l').map fun p => (.str p.1, p.2)
      | [] => none
    else if t = 0xDA then
      match readN 2 l with
      | some (len, l') => (readN (beVal len) l').map fun p => (.str p.1, p.2)
      | none => none
    else if t = 0xDB then
      match readN 4 l with
      | some (len, l') => (readN (beVal len) l').map fun p => (.str p.1, p.2)
      | none => none
    else if t = 0xC4 then
      match l with
      | n :: l' => (readN n l').map fun p => (.bin p.1, p.2)
      | [] => none
    else if t = 0xC5 then
      match readN 2 l with
      | some (len, l') => (readN (beVal len) l').map fun p => (.bin p.1, p.2)
      | none => none
    else if t = 0xC6 then
      match readN 4 l with
      | some (len, l') => (readN (beVal len) l').map fun p => (.bin p.1, p.2)
      | none => none
    else none

/-- Decode `k` map entries (string key, primitive value). -/
def decEntries : ℕ → List ℕ → Option (List (List ℕ × MPV) × List ℕ)
  | 0, l => some ([], l)
  | k + 1, l =>
    match decMPV l with
    | some (.str kv, l1) =>
      match decMPV l1 with
      | some (v, l2) =>
        match decEntries k l2 with
        | some (rest, l3) => some ((kv, v) :: rest, l3)
        | none => none
      | none => none
    | _ => none

/-- Decode a msgpack object from the front of a stream. -/
def decMP (l : List ℕ) : Option (MP × List ℕ) :=
  match l with
  | t :: rest =>
    if 0x80 ≤ t ∧ t ≤ 0x8F then
      (decEntries (t - 0x80) rest).map fun p => (.map p.1, p.2)
    else (decMPV l).map fun p => (.prim p.1, p.2)
  | [] => none

/-- Well-formedness of a leaf for the round trip: integer values fit an
`int64` and lengths fit their 32-bit size fields. -/
def MPV.wf : MPV → Prop
  | .nil => True
  | .int i => -(2 ^ 63) ≤ i ∧ i < 2 ^ 63
  | .str s => s.length < 2 ^ 32
  | .bin b => b.length < 2 ^ 32

/-- Well-formedness of an object: leaves well formed, fixmap size bound. -/
def MP.wf : MP → Prop
  | .prim v => v.wf
  | .map es => es.length ≤ 15 ∧ ∀ e ∈ es, e.1.length < 2 ^ 32 ∧ MPV.wf e.2

/-! ### Codec round-trip lemmas -/

theorem beBytes_length (k : ℕ) : ∀ n, (beBytes k n).length = k := by
  induction k with
  | zero => intro n; rfl
  | succ k ih => intro n; simp [beBytes, ih]

theorem beBytes_lt (k : ℕ) : ∀ n, ∀ x ∈ beBytes k n, x < 256 := by
  induction k with
  | zero => intro n x hx; simp [beBytes] at hx
  | succ k ih =>
      intro n x hx
      simp only [beBytes, List.mem_append, List.mem_singleton] at hx
      rcases hx with hx | hx
      · exact ih _ x hx
      · omega

theorem beVal_append_one (l : List ℕ) (b : ℕ) : beVal (l ++ [b]) = beVal l * 256 + b := by
  simp [beVal, List.foldl_append]

theorem beVal_beBytes (k : ℕ) : ∀ n, n < 256 ^ k → beVal (beBytes k n) = n := by
  induction k with
  | zero => intro n h; interval_cases n; rfl
  | succ k ih =>
      intro n h
      have hd : n / 256 < 256 ^ k := by
        have : (256 : ℕ) ^ (k + 1) = 256 ^ k * 256 := by ring
        omega
      simp [beBytes, beVal_append_one, ih _ hd]
      omega

theorem readN_append (l : List ℕ) : ∀ r, readN l.length (l ++ r) = some (l, r) := by
  induction l with
  | nil => intro r; rfl
  | cons x tl ih => intro r; simp [readN, ih r]

theorem readN_append_of_length (k : ℕ) (l r : List ℕ) (h : l.length = k) :
    readN k (l ++ r) = some (l, r) := by
  subst h; exact readN_append l r

/-! Branch lemmas for `decMPV` at each leading tag. -/

theorem decMPV_fixint (n : ℕ) (h : n < 128) (l : List ℕ) :
    decMPV (n :: l) = some (.int n, l) := by
  simp only [decMPV]
  rw [if_pos h]

theorem decMPV_negfix (n : ℕ) (h1 : 224 ≤ n) (h2 : n ≤ 255) (l : List ℕ) :
    decMPV (n :: l) = some (.int ((n : ℤ) - 256), l) := by
  simp only [decMPV]
  rw [if_neg (by omega), if_pos (by omega)]

theorem decMPV_nilb (l : List ℕ) : decMPV (0xC0 :: l) = some (.nil, l) := by
  simp [decMPV]

theorem decMPV_cc (n : ℕ) (l : List ℕ) : decMPV (0xCC :: n :: l) = some (.int n, l) := by
  simp [decMPV]

theorem decMPV_cd (l : List ℕ) :
    decMPV (0xCD :: l) = (readN 2 l).map fun p => (MPV.int (beVal p.1), p.2) := by
  simp [decMPV]

theorem decMPV_ce (l : List ℕ) :
    decMPV (0xCE :: l) = (readN 4 l).map fun p => (MPV.int (beVal p.1), p.2) := by
  simp [decMPV]

theorem decMPV_cf (l : List ℕ) :
    decMPV (0xCF :: l) = (readN 8 l).map fun p => (MPV.int (beVal p.1), p.2) := by
  simp [decMPV]

theorem decMPV_d0 (n : ℕ) (l : List ℕ) :
    decMPV (0xD0 :: n :: l) = some (.int (sdec 1 n), l) := by
  simp [decMPV]

theorem decMPV_d1 (l : List ℕ) :
    decMPV (0xD1 :: l) = (readN 2 l).map fun p => (MPV.int (sdec 2 (beVal p.1)), p.2) := by
  simp [decMPV]

theorem decMPV_d2 (l : List ℕ) :
    decMPV (0xD2 :: l) = (readN 4 l).map fun p => (MPV.int (sdec 4 (beVal p.1)), p.2) := by
  simp [decMPV]

theorem decMPV_d3 (l : List ℕ) :
    decMPV (0xD3 :: l) = (readN 8 l).map fun p => (MPV.int (sdec 8 (beVal p.1)), p.2) := by
  simp [decMPV]

theorem decMPV_fixstr (t : ℕ) (h1 : 160 ≤ t) (h2 : t ≤ 191) (l : List ℕ) :
    decMPV (t :: l) = (readN (t - 160) l).map fun p => (MPV.str p.1, p.2) := by
  have hA : ¬ t < 128 := by omega
  have hB : ¬ (224 ≤ t ∧ t ≤ 255) := by omega
  have hC : t ≠ 192 := by omega
  have hD : t ≠ 204 := by omega
  have hE : t ≠ 205 := by omega
  have hF : t ≠ 206 := by omega
  have hG : t ≠ 207 := by omega
  have hH : t ≠ 208 := by omega
  have hI : t ≠ 209 := by omega
  have hJ : t ≠ 210 := by omega
  have hK : t ≠ 211 := by omega
  simp only [decMPV]
  rw [if_neg hA, if_neg hB, if_neg hC, if_neg hD, if_neg hE, if_neg hF, if_neg hG,
    if_neg hH, if_neg hI, if_neg hJ, if_neg hK, if_pos (by omega)]

theorem decMPV_d9 (n : ℕ) (l : List ℕ) :
    decMPV (0xD9 :: n :: l) = (readN n l).map fun p => (MPV.str p.1, p.2) := by
  simp [decMPV]

theorem decMPV_da (l : List ℕ) :
    decMPV (0xDA :: l) =
      match readN 2 l with
      | some (len, l') => (readN (beVal len) l').map fun p => (MPV.str p.1, p.2)
      | none => none := by
  simp [decMPV]

theorem decMPV_db (l : List ℕ) :
    decMPV (0xDB :: l) =
      match readN 4 l with
      | some (len, l') => (readN (beVal len) l').map fun p => (MPV.str p.1, p.2)
      | none => none := by
  simp [decMPV]

theorem decMPV_c4 (n : ℕ) (l : List ℕ) :
    decMPV (0xC4 :: n :: l) = (readN n l).map fun p => (MPV.bin p.1, p.2) := by
  simp [decMPV]

theorem decMPV_c5 (l : List ℕ) :
    decMPV (0xC5 :: l) =
      match readN 2 l with
      | some (len, l') => (readN (beVal len) l').map fun p => (MPV.bin p.1, p.2)
      | none => none := by
  simp [decMPV]

theorem decMPV_c6 (l : List ℕ) :
    decMPV (0xC6 :: l) =
      match readN 4 l with
      | some (len, l') => (readN (beVal len) l').map fun p => (MPV.bin p.1, p.2)
      | none => none := by
  simp [decMPV]

theorem decMPV_encInt (i : ℤ) (h1 : -(2 ^ 63) ≤ i) (h2 : i < 2 ^ 63) (r : List ℕ) :
    decMPV (encInt i ++ r) = some (.int i, r) := by
  by_cases hpos : 0 ≤ i
  · rw [encInt, if_pos hpos]
    have hin : ((i.toNat : ℤ)) = i := Int.toNat_of_nonneg hpos
    dsimp only
    split_ifs with c1 c2 c3 c4
    · rw [List.cons_append, decMPV_fixint _ (by omega)]
      simp [hin]
    · rw [List.cons_append, List.cons_append, decMPV_cc]
      simp [hin]
    · rw [List.cons_append, decMPV_cd,
        readN_append_of_length 2 _ _ (beBytes_length 2 _)]
      simp only [Option.map_some']
      rw [beVal_beBytes 2 _ (by norm_num; omega)]
      simp [hin]
    · rw [List.cons_append, decMPV_ce,
        readN_append_of_length 4 _ _ (beBytes_length 4 _)]
      simp only [Option.map_some']
      rw [beVal_beBytes 4 _ (by norm_num; omega)]
      simp [hin]
    · rw [List.cons_append, decMPV_cf,
        readN_append_of_length 8 _ _ (beBytes_length 8 _)]
      simp only [Option.map_some']
      rw [beVal_beBytes 8 _ (by norm_num; omega)]
      simp [hin]
  · rw [encInt, if_neg hpos]
    have hneg : ((-i).toNat : ℤ) = -i := Int.toNat_of_nonneg (by omega)
    have hm1 : 1 ≤ (-i).toNat := by omega
    dsimp only
    split_ifs with c1 c2 c3 c4
    · rw [List.cons_append, decMPV_negfix _ (by omega) (by omega)]
      simp only [Option.some.injEq, Prod.mk.injEq, MPV.int.injEq, List.nil_append]
      exact ⟨by omega, trivial⟩
    · rw [List.cons_append, List.cons_append, decMPV_d0]
      simp only [Option.some.injEq, Prod.mk.injEq, MPV.int.injEq, List.nil_append]
      refine ⟨?_, trivial⟩
      rw [sdec, if_neg (by norm_num; omega)]
      omega
    · rw [List.cons_append, decMPV_d1,
        readN_append_of_length 2 _ _ (beBytes_length 2 _)]
      simp only [Option.map_some']
      rw [beVal_beBytes 2 _ (by norm_num; omega)]
      simp only [Option.some.injEq, Prod.mk.injEq, MPV.int.injEq, List.nil_append]
      refine ⟨?_, trivial⟩
      rw [sdec, if_neg (by norm_num; omega)]
      omega
    · rw [List.cons_append, decMPV_d2,
        readN_append_of_length 4 _ _ (beBytes_length 4 _)]
      simp only [Option.map_some']
      rw [beVal_beBytes 4 _ (by norm_num; omega)]
      simp only [Option.some.injEq, Prod.mk.injEq, MPV.int.injEq, List.nil_append]
      refine ⟨?_, trivial⟩
      rw [sdec, if_neg (by norm_num; omega)]
      omega
    · rw [List.cons_append, decMPV_d3,
        readN_append_of_length 8 _ _ (beBytes_length 8 _)]
      simp only [Option.map_some']
      rw [beVal_beBytes 8 _ (by norm_num; omega)]
      simp only [Option.some.injEq, Prod.mk.injEq, MPV.int.injEq, List.nil_append]
      refine ⟨?_, trivial⟩
      rw [sdec, if_neg (by norm_num; omega)]
      omega

theorem decMPV_encStr (s : List ℕ) (h : s.length < 2 ^ 32) (r : List ℕ) :
    decMPV (encStr s ++ r) = some (.str s, r) := by
  rw [encStr]
  split_ifs with c1 c2 c3
  · rw [List.cons_append, decMPV_fixstr _ (by omega) (by omega)]
    have he : 160 + s.length - 160 = s.length := by omega
    rw [he, readN_append_of_length _ _ _ rfl]
    rfl
  · rw [List.cons_append, List.cons_append, decMPV_d9,
      readN_append_of_length _ _ _ rfl]
    rfl
  · rw [List.cons_append, List.cons_append, List.append_assoc, decMPV_da,
      readN_append_of_length 2 _ _ (beBytes_length 2 _)]
    simp only
    rw [beVal_beBytes 2 _ (by norm_num; omega),
      readN_append_of_length _ _ _ rfl]
    rfl
  · rw [List.cons_append, List.cons_append, List.append_assoc, decMPV_db,
      readN_append_of_length 4 _ _ (beBytes_length 4 _)]
    simp only
    rw [beVal_beBytes 4 _ (by norm_num; omega),
      readN_append_of_length _ _ _ rfl]
    rfl

theorem decMPV_encBin (b : List ℕ) (h : b.length < 2 ^ 32) (r : List ℕ) :
    decMPV (encBin b ++ r) = some (.bin b, r) := by
  rw [encBin]
  split_ifs with c1 c2
  · rw [List.cons_append, List.cons_append, decMPV_c4,
      readN_append_of_length _ _ _ rfl]
    rfl
  · rw [List.cons_append, List.cons_append, List.append_assoc, decMPV_c5,
      readN_append_of_length 2 _ _ (beBytes_length 2 _)]
    simp only
    rw [beVal_beBytes 2 _ (by norm_num; omega),
      readN_append_of_length _ _ _ rfl]
    rfl
  · rw [List.cons_append, List.cons_append, List.append_assoc, decMPV_c6,
      readN_append_of_length 4 _ _ (beBytes_length 4 _)]
    simp only
    rw [beVal_beBytes 4 _ (by norm_num; omega),
      readN_append_of_length _ _ _ rfl]
    rfl

theorem decMPV_encMPV (v : MPV) (h : v.wf) (r : List ℕ) :
    decMPV (encMPV v ++ r) = some (v, r) := by
  cases v with
  | nil => simpa [encMPV] using decMPV_nilb r
  | int i => exact decMPV_encInt i h.1 h.2 r
  | str s => exact decMPV_encStr s h r
  | bin b => exact decMPV_encBin b h r

/-- The first byte of an encoded primitive leaf is never a fixmap tag. -/
theorem encMPV_head (v : MPV) :
    ∃ t tl, encMPV v = t :: tl ∧ (t < 128 ∨ 160 ≤ t) := by
  cases v with
  | nil => exact ⟨0xC0, [], rfl, by omega⟩
  | int i =>
      rw [encMPV, encInt]
      split_ifs with hs
      all_goals dsimp only
      all_goals split_ifs
      all_goals exact ⟨_, _, rfl, by omega⟩
  | str s =>
      rw [encMPV, encStr]
      split_ifs <;> exact ⟨_, _, rfl, by omega⟩
  | bin b =>
      rw [encMPV, encBin]
      split_ifs <;> exact ⟨_, _, rfl, by omega⟩

theorem decMP_prim (v : MPV) (h : v.wf) (r : List ℕ) :
    decMP (encMPV v ++ r) = some (.prim v, r) := by
  obtain ⟨t, tl, he, ht⟩ := encMPV_head v
  have hd := decMPV_encMPV v h r
  rw [he] at hd ⊢
  rw [List.cons_append] at hd ⊢
  rw [decMP, if_neg (by omega), hd]
  rfl

theorem decEntries_enc (es : List (List ℕ × MPV)) (r : List ℕ)
    (h : ∀ e ∈ es, e.1.length < 2 ^ 32 ∧ MPV.wf e.2) :
    decEntries es.length ((es.map fun e => encStr e.1 ++ encMPV e.2).flatten ++ r) =
      some (es, r) := by
  induction es with
  | nil => simp [decEntries]
  | cons hd tl ih =>
      have hhd := h hd (by simp)
      have htl : ∀ e ∈ tl, e.1.length < 2 ^ 32 ∧ MPV.wf e.2 := by
        intro e he
        exact h e (by simp [he])
      simp only [List.map_cons, List.flatten_cons, List.length_cons]
      rw [List.append_assoc, List.append_assoc, decEntries, decMPV_encStr hd.1 hhd.1]
      dsimp only
      rw [decMPV_encMPV hd.2 hhd.2]
      dsimp only
      rw [ih htl]

theorem decMP_encMP (m : MP) (h : m.wf) (r : List ℕ) :
    decMP (encMP m ++ r) = some (m, r) := by
  cases m with
  | prim v => exact decMP_prim v h r
  | map es =>
      obtain ⟨hlen, hes⟩ := h
      rw [encMP, List.cons_append, decMP, if_pos (by omega)]
      have he : 128 + es.length - 128 = es.length := by omega
      rw [he, decEntries_enc es r hes]
      rfl

/-! ### Encoder output stays in byte range -/

/-- String/byte-string contents of a leaf are genuine bytes. -/
def MPV.bytesLT : MPV → Prop
  | .nil => True
  | .int _ => True
  | .str s => ∀ x ∈ s, x < 256
  | .bin b => ∀ x ∈ b, x < 256

/-- String/byte-string contents of an object are genuine bytes. -/
def MP.bytesLT : MP → Prop
  | .prim v => v.bytesLT
  | .map es => ∀ e ∈ es, (∀ x ∈ e.1, x < 256) ∧ e.2.bytesLT

theorem encInt_lt (i : ℤ) : ∀ x ∈ encInt i, x < 256 := by
  have hb2 := beBytes_lt 2
  have hb4 := beBytes_lt 4
  have hb8 := beBytes_lt 8
  rw [encInt]
  split_ifs with hs
  · dsimp only
    split_ifs with c1 c2 c3 c4
    · intro x hx
      simp only [List.mem_singleton] at hx
      omega
    · intro x hx
      simp only [List.not_mem_nil, List.mem_cons, or_false] at hx
      omega
    · intro x hx
      simp only [List.mem_cons] at hx
      rcases hx with hx | hx
      · omega
      · exact hb2 _ x hx
    · intro x hx
      simp only [List.mem_cons] at hx
      rcases hx with hx | hx
      · omega
      · exact hb4 _ x hx
    · intro x hx
      simp only [List.mem_cons] at hx
      rcases hx with hx | hx
      · omega
      · exact hb8 _ x hx
  · dsimp only
    split_ifs with c1 c2 c3 c4
    · intro x hx
      simp only [List.mem_singleton] at hx
      omega
    · intro x hx
      simp only [List.not_mem_nil, List.mem_cons, or_false] at hx
      omega
    · intro x hx
      simp only [List.mem_cons] at hx
      rcases hx with hx | hx
      · omega
      · exact hb2 _ x hx
    · intro x hx
      simp only [List.mem_cons] at hx
      rcases hx with hx | hx
      · omega
      · exact hb4 _ x hx
    · intro x hx
      simp only [List.mem_cons] at hx
      rcases hx with hx | hx
      · omega
      · exact hb8 _ x hx

theorem encStr_lt (s : List ℕ) (hs : ∀ x ∈ s, x < 256) : ∀ x ∈ encStr s, x < 256 := by
  rw [encStr]
  split_ifs with c1 c2 c3
  all_goals intro x hx
  all_goals simp only [List.cons_append, List.mem_cons, List.mem_append] at hx
  · rcases hx with hx | hx
    · omega
    · exact hs x hx
  · rcases hx with hx | hx | hx
    · omega
    · omega
    · exact hs x hx
  · rcases hx with hx | hx | hx
    · omega
    · exact beBytes_lt _ _ x hx
    · exact hs x hx
  · rcases hx with hx | hx | hx
    · omega
    · exact beBytes_lt _ _ x hx
    · exact hs x hx

theorem encBin_lt (b : List ℕ) (hb : ∀ x ∈ b, x < 256) (h : b.length ≤ 255) :
    ∀ x ∈ encBin b, x < 256 := by
  rw [encBin, if_pos h]
  intro x hx
  simp only [List.mem_cons] at hx
  rcases hx with hx | hx | hx
  · omega
  · omega
  · exact hb x hx

theorem encMPV_lt (v : MPV) (hv : v.bytesLT) (hw : v.wf) : ∀ x ∈ encMPV v, x < 256 := by
  cases v with
  | nil => intro x hx; simp only [encMPV, List.mem_singleton] at hx; omega
  | int i => exact encInt_lt i
  | str s => exact encStr_lt s hv
  | bin b =>
      rw [encMPV, encBin]
      split_ifs with c1 c2
      all_goals intro x hx
      all_goals simp only [List.cons_append, List.mem_cons, List.mem_append] at hx
      · rcases hx with hx | hx | hx
        · omega
        · omega
        · exact hv x hx
      · rcases hx with hx | hx | hx
        · omega
        · exact beBytes_lt _ _ x hx
        · exact hv x hx
      · rcases hx with hx | hx | hx
        · omega
        · exact beBytes_lt _ _ x hx
        · exact hv x hx

theorem encMP_lt (m : MP) (hm : m.bytesLT) (hw : m.wf) : ∀ x ∈ encMP m, x < 256 := by
  cases m with
  | prim v => exact encMPV_lt v hm hw
  | map es =>
      intro x hx
      rw [encMP] at hx
      simp only [List.mem_cons, List.mem_flatten, List.mem_map] at hx
      rcases hx with hx | ⟨l, ⟨e, he, hl⟩, hxl⟩
      · have := hw.1
        omega
      · subst hl
        simp only [List.mem_append] at hxl
        rcases hxl with hxl | hxl
        · exact encStr_lt e.1 (hm e he).1 x hxl
        · exact encMPV_lt e.2 (hm e he).2 (hw.2 e he).2 x hxl

/-! ## Data model (`token/token.go`, `token/footprint` part of store.go sources)

Go strings and byte slices are `List ℕ`; `uuid.UUID` is a 16-byte list;
`Timestamp` (seconds) and `time.Duration` (nanoseconds) are `ℤ`. -/

/-- The all-zero UUID (`uuid.UUID{}`), treated as "unset". -/
def zeroUUID : List ℕ := List.replicate 16 0

/-- `uaparser.UserAgent`: the four string fields used by the repository. -/
structure UserAgent where
  Family : List ℕ
  Major : List ℕ
  Minor : List ℕ
  Patch : List ℕ
deriving DecidableEq, Repr

/-- `uaparser.Os`: the five string fields used by the repository. -/
structure Os where
  Family : List ℕ
  Major : List ℕ
  Minor : List ℕ
  Patch : List ℕ
  PatchMinor : List ℕ
deriving DecidableEq, Repr

/-- `uaparser.Device`: the three string fields used by the repository. -/
structure Device where
  Brand : List ℕ
  Family : List ℕ
  Model : List ℕ
deriving DecidableEq, Repr

/-- `token.Footprint`. `RemoteAddr` is a `net.IP`, i.e. a byte slice
(empty = absent); the three UA records are optional pointers. -/
structure Footprint where
  Timestamp : ℤ
  RemoteAddr : List ℕ
  Referer : List ℕ
  Origin : List ℕ
  UserAgent : Option UserAgent
  Os : Option Os
  Device : Option Device
deriving DecidableEq, Repr

/-- `token.Token`: the public token with its two unexported footprint
slots (`fpi`, `fpc`). -/
structure Token where
  Id : List ℕ
  Subject : List ℕ
  Issuer : List ℕ
  Audience : List (List ℕ)
  Issued : ℤ
  NotBefore : ℤ
  Expires : ℤ
  fpi : Option Footprint
  fpc : Option Footprint
deriving DecidableEq, Repr

/-- `token.token`: the internal msgpack representation of `Token`. -/
structure IToken where
  Id : List ℕ
  Subject : List ℕ
  Issuer : List ℕ
  Audience : List ℕ
  Issued : ℤ
  NotBefore : ℤ
  Expires : ℤ
deriving DecidableEq, Repr

/-- `token.footprint`: the internal msgpack representation of `Footprint`. -/
structure IFootprint where
  Timestamp : ℤ
  RemoteAddr : List ℕ
  Referer : List ℕ
  Origin : List ℕ
  UserAgent : List ℕ
  Os : List ℕ
  Device : List ℕ
deriving DecidableEq, Repr

/-- `strings.Join(l, "\x00")`. -/
def joinNul (l : List (List ℕ)) : List ℕ := List.intercalate [0] l

/-- `strings.Split(s, "\x00")`. -/
def splitNul (s : List ℕ) : List (List ℕ) := s.splitOn 0

/-- `(*Token).toInternal`. -/
def Token.toInternal (t : Token) : IToken :=
  { Id := if t.Id = zeroUUID then [] else t.Id
    Subject := if t.Subject = zeroUUID then [] else t.Subject
    Issuer := t.Issuer
    Audience := joinNul t.Audience
    Issued := t.Issued
    NotBefore := t.NotBefore
    Expires := t.Expires }

/-- `(*Token).fromInternal`: starts from a zero `Token` and copies fields;
the 16-byte arrays are copied only when the decoded slice has length 16,
the audience string is split only when non-empty. -/
def Token.fromInternal (x : IToken) : Token :=
  { Id := if x.Id.length = 16 then x.Id else zeroUUID
    Subject := if x.Subject.length = 16 then x.Subject else zeroUUID
    Issuer := x.Issuer
    Audience := if x.Audience.length ≠ 0 then splitNul x.Audience else []
    Issued := x.Issued
    NotBefore := x.NotBefore
    Expires := x.Expires
    fpi := none
    fpc := none }

/-- `(*Footprint).toInternal`: UA/OS/device records become NUL-joined field
lists. -/
def Footprint.toInternal (fp : Footprint) : IFootprint :=
  { Timestamp := fp.Timestamp
    RemoteAddr := fp.RemoteAddr
    Referer := fp.Referer
    Origin := fp.Origin
    UserAgent :=
      match fp.UserAgent with
      | some ua => joinNul [ua.Family, ua.Major, ua.Minor, ua.Patch]
      | none => []
    Os :=
      match fp.Os with
      | some os => joinNul [os.Family, os.Major, os.Minor, os.Patch, os.PatchMinor]
      | none => []
    Device :=
      match fp.Device with
      | some dv => joinNul [dv.Brand, dv.Family, dv.Model]
      | none => [] }

/-- `(*Footprint).fromInternal` (non-nil argument case): NUL-joined strings
are split back, each field list is copied into a fixed-size array of field
slots (missing slots stay empty, extra slots are dropped). -/
def Footprint.fromInternal (x : IFootprint) : Footprint :=
  { Timestamp := x.Timestamp
    RemoteAddr := x.RemoteAddr
    Referer := x.Referer
    Origin := x.Origin
    UserAgent :=
      if x.UserAgent.length ≠ 0 then
        let v := splitNul x.UserAgent
        some ⟨v.getD 0 [], v.getD 1 [], v.getD 2 [], v.getD 3 []⟩
      else none
    Os :=
      if x.Os.length ≠ 0 then
        let v := splitNul x.Os
        some ⟨v.getD 0 [], v.getD 1 [], v.getD 2 [], v.getD 3 [], v.getD 4 []⟩
      else none
    Device :=
      if x.Device.length ≠ 0 then
        let v := splitNul x.Device
        some ⟨v.getD 0 [], v.getD 1 [], v.getD 2 []⟩
      else none }

/-! ## msgpack form of the internal records

Modelled from the spec (§4.1 field tags): the msgpack library encodes a
tagged Go struct as a map in field order, skipping `omitempty` fields whose
value is the zero value; a nil byte-slice field without `omitempty` is
encoded as msgpack nil. Decoding fills struct fields by key, leaving
missing fields at their zero value and skipping unknown keys. -/

/-- Field tag "tid". -/
def kTid : List ℕ := [116, 105, 100]

/-- Field tag "sub". -/
def kSub : List ℕ := [115, 117, 98]

/-- Field tag "iss". -/
def kIss : List ℕ := [105, 115, 115]

/-- Field tag "aud". -/
def kAud : List ℕ := [97, 117, 100]

/-- Field tag "iat". -/
def kIat : List ℕ := [105, 97, 116]

/-- Field tag "nbf". -/
def kNbf : List ℕ := [110, 98, 102]

/-- Field tag "exp". -/
def kExp : List ℕ := [101, 120, 112]

/-- Field tag "tsp". -/
def kTsp : List ℕ := [116, 115, 112]

/-- Field tag "adr". -/
def kAdr : List ℕ := [97, 100, 114]

/-- Field tag "ref". -/
def kRef : List ℕ := [114, 101, 102]

/-- Field tag "org". -/
def kOrg : List ℕ := [111, 114, 103]

/-- Field tag "uag". -/
def kUag : List ℕ := [117, 97, 103]

/-- Field tag "uos". -/
def kUos : List ℕ := [117, 111, 115]

/-- Field tag "udv". -/
def kUdv : List ℕ := [117, 100, 118]

/-- msgpack map written for an internal `token` struct: `tid`/`sub` always
present (nil when the slice is empty), `iss`/`aud` omitted when empty,
`iat` always present, `nbf`/`exp` omitted when zero. -/
def ITokenMP (x : IToken) : MP :=
  .map ([(kTid, if x.Id = [] then MPV.nil else .bin x.Id),
         (kSub, if x.Subject = [] then MPV.nil else .bin x.Subject)]
    ++ (if x.Issuer = [] then [] else [(kIss, MPV.str x.Issuer)])
    ++ (if x.Audience = [] then [] else [(kAud, MPV.str x.Audience)])
    ++ [(kIat, MPV.int x.Issued)]
    ++ (if x.NotBefore = 0 then [] else [(kNbf, MPV.int x.NotBefore)])
    ++ (if x.Expires = 0 then [] else [(kExp, MPV.int x.Expires)]))

/-- msgpack map written for an internal `footprint` struct: every field is
`omitempty`. -/
def IFootprintMP (x : IFootprint) : MP :=
  .map ((if x.Timestamp = 0 then [] else [(kTsp, MPV.int x.Timestamp)])
    ++ (if x.RemoteAddr = [] then [] else [(kAdr, MPV.bin x.RemoteAddr)])
    ++ (if x.Referer = [] then [] else [(kRef, MPV.str x.Referer)])
    ++ (if x.Origin = [] then [] else [(kOrg, MPV.str x.Origin)])
    ++ (if x.UserAgent = [] then [] else [(kUag, MPV.str x.UserAgent)])
    ++ (if x.Os = [] then [] else [(kUos, MPV.str x.Os)])
    ++ (if x.Device = [] then [] else [(kUdv, MPV.str x.Device)]))

/-- Key lookup in a decoded msgpack map. -/
def lookupMP (es : List (List ℕ × MPV)) (k : List ℕ) : Option MPV :=
  (es.find? fun e => e.1 = k).map (·.2)

/-- Decode a map value into a Go byte-slice field: missing or nil gives
the empty slice, str and bin contents are accepted. -/
def getBinV : Option MPV → Option (List ℕ)
  | none => some []
  | some .nil => some []
  | some (.bin b) => some b
  | some (.str s) => some s
  | some (.int _) => none

/-- Decode a map value into a Go string field. -/
def getStrV : Option MPV → Option (List ℕ)
  | none => some []
  | some .nil => some []
  | some (.str s) => some s
  | some (.bin b) => some b
  | some (.int _) => none

/-- Decode a map value into a Go int64 field. -/
def getIntV : Option MPV → Option ℤ
  | none => some 0
  | some .nil => some 0
  | some (.int i) => some i
  | some (.str _) => none
  | some (.bin _) => none

/-- Decode a msgpack map into an internal `token` struct. -/
def decIToken (es : List (List ℕ × MPV)) : Option IToken := do
  let tid ← getBinV (lookupMP es kTid)
  let sub ← getBinV (lookupMP es kSub)
  let iss ← getStrV (lookupMP es kIss)
  let aud ← getStrV (lookupMP es kAud)
  let iat ← getIntV (lookupMP es kIat)
  let nbf ← getIntV (lookupMP es kNbf)
  let expv ← getIntV (lookupMP es kExp)
  pure ⟨tid, sub, iss, aud, iat, nbf, expv⟩

/-- Decode a msgpack map into an internal `footprint` struct. -/
def decIFootprint (es : List (List ℕ × MPV)) : Option IFootprint := do
  let tsp ← getIntV (lookupMP es kTsp)
  let adr ← getBinV (lookupMP es kAdr)
  let ref ← getStrV (lookupMP es kRef)
  let org ← getStrV (lookupMP es kOrg)
  let uag ← getStrV (lookupMP es kUag)
  let uos ← getStrV (lookupMP es kUos)
  let udv ← getStrV (lookupMP es kUdv)
  pure ⟨tsp, adr, ref, org, uag, uos, udv⟩

/-- msgpack bytes of a `*Token` value: nil encodes as the single byte
`0xC0`, otherwise the custom encoder writes the internal struct's map. -/
def encTokenBytes (t : Option Token) : List ℕ :=
  match t with
  | none => [0xC0]
  | some t => encMP (ITokenMP t.toInternal)

/-- msgpack decode of a `*Token` value from the front of a stream: nil
leaves the pointer nil, a map decodes through the internal struct. -/
def decTokenBytes (l : List ℕ) : Option (Option Token × List ℕ) :=
  match decMP l with
  | some (.prim .nil, r) => some (none, r)
  | some (.map es, r) =>
    match decIToken es with
    | some x => some (some (Token.fromInternal x), r)
    | none => none
  | _ => none

/-- msgpack bytes of a `*Footprint` value. -/
def encFpBytes (fp : Option Footprint) : List ℕ :=
  match fp with
  | none => [0xC0]
  | some fp => encMP (IFootprintMP fp.toInternal)

/-- msgpack decode of a `*Footprint` value from the front of a stream. -/
def decFpBytes (l : List ℕ) : Option (Option Footprint × List ℕ) :=
  match decMP l with
  | some (.prim .nil, r) => some (none, r)
  | some (.map es, r) =>
    match decIFootprint es with
    | some x => some (some (Footprint.fromInternal x), r)
    | none => none
  | _ => none

/-! ## Well-formedness for the persistence round trip -/

/-- A Go byte string: all entries below 256. -/
def strB (s : List ℕ) : Prop := ∀ x ∈ s, x < 256

/-- A value that fits a Go `int64`. -/
def i64 (i : ℤ) : Prop := -(2 ^ 63) ≤ i ∧ i < 2 ^ 63

/-- Conditions under which a `Footprint` survives the msgpack round trip:
ordinary byte strings, `int64` timestamp, and NUL-free UA fields (spec §9:
NUL is disallowed inside the joined fields by construction). -/
def Footprint.wfEnc (fp : Footprint) : Prop :=
  i64 fp.Timestamp ∧ strB fp.RemoteAddr ∧ fp.RemoteAddr.length < 2 ^ 32 ∧
  strB fp.Referer ∧ fp.Referer.length < 2 ^ 32 ∧
  strB fp.Origin ∧ fp.Origin.length < 2 ^ 32 ∧
  (match fp.UserAgent with
   | some ua =>
     (∀ f ∈ [ua.Family, ua.Major, ua.Minor, ua.Patch], 0 ∉ f ∧ strB f) ∧
     (joinNul [ua.Family, ua.Major, ua.Minor, ua.Patch]).length < 2 ^ 32
   | none => True) ∧
  (match fp.Os with
   | some os =>
     (∀ f ∈ [os.Family, os.Major, os.Minor, os.Patch, os.PatchMinor], 0 ∉ f ∧ strB f) ∧
     (joinNul [os.Family, os.Major, os.Minor, os.Patch, os.PatchMinor]).length < 2 ^ 32
   | none => True) ∧
  (match fp.Device with
   | some dv =>
     (∀ f ∈ [dv.Brand, dv.Family, dv.Model], 0 ∉ f ∧ strB f) ∧
     (joinNul [dv.Brand, dv.Family, dv.Model]).length < 2 ^ 32
   | none => True)

/-- Conditions under which a `Token` survives the msgpack round trip:
16-byte identifiers, byte-string fields, `int64` timestamps, a NUL-free
audience list that is not the degenerate `[""]` (whose NUL-join is empty
and hence dropped by `omitempty`), and well-formed footprints. -/
def Token.wfEnc (t : Token) : Prop :=
  t.Id.length = 16 ∧ strB t.Id ∧
  t.Subject.length = 16 ∧ strB t.Subject ∧
  strB t.Issuer ∧ t.Issuer.length < 2 ^ 32 ∧
  t.Audience ≠ [[]] ∧ (∀ a ∈ t.Audience, 0 ∉ a ∧ strB a) ∧
  (joinNul t.Audience).length < 2 ^ 32 ∧
  i64 t.Issued ∧ i64 t.NotBefore ∧ i64 t.Expires ∧
  (match t.fpi with | some fp => fp.wfEnc | none => True) ∧
  (match t.fpc with | some fp => fp.wfEnc | none => True)

theorem joinNul_cons_cons (a b : List ℕ) (t : List (List ℕ)) :
    joinNul (a :: b :: t) = a ++ [0] ++ joinNul (b :: t) := by
  simp [joinNul, List.intercalate, List.intersperse]

theorem joinNul_singleton (a : List ℕ) : joinNul [a] = a := by
  simp [joinNul, List.intercalate]

theorem splitNul_joinNul (l : List (List ℕ)) (hne : l ≠ [])
    (hn : ∀ a ∈ l, 0 ∉ a) : splitNul (joinNul l) = l := by
  unfold splitNul joinNul
  exact List.splitOn_intercalate l 0 hn hne

theorem joinNul_ne_nil (l : List (List ℕ)) (hne : l ≠ []) (hdeg : l ≠ [[]])
    (hn : ∀ a ∈ l, 0 ∉ a) : joinNul l ≠ [] := by
  intro h
  have hs := splitNul_joinNul l hne hn
  rw [h] at hs
  have : splitNul [] = [[]] := rfl
  rw [this] at hs
  exact hdeg hs.symm

theorem joinNul_strB (l : List (List ℕ)) (h : ∀ a ∈ l, strB a) : strB (joinNul l) := by
  induction l with
  | nil => intro x hx; simp [joinNul, List.intercalate] at hx
  | cons a t ih =>
      cases t with
      | nil =>
          rw [joinNul_singleton]
          exact h a (by simp)
      | cons b t2 =>
          rw [joinNul_cons_cons]
          intro x hx
          simp only [List.append_assoc, List.mem_append, List.mem_singleton] at hx
          rcases hx with hx | hx | hx
          · exact h a (by simp) x hx
          · omega
          · refine ih ?_ x hx
            intro m hm
            exact h m (by simp [hm])

/-! ### Record-level round trips -/

theorem lookupMP_nil (k : List ℕ) : lookupMP [] k = none := rfl

theorem lookupMP_cons (k1 : List ℕ) (v : MPV) (rest : List (List ℕ × MPV)) (k : List ℕ) :
    lookupMP ((k1, v) :: rest) k = if k1 = k then some v else lookupMP rest k := by
  unfold lookupMP
  rw [List.find?_cons]
  by_cases h : k1 = k
  · simp [h]
  · simp [h]

set_option maxHeartbeats 1000000 in
theorem decIToken_ITokenMP (x : IToken) :
    (match ITokenMP x with
     | .map es => decIToken es
     | .prim _ => none) = some x := by
  obtain ⟨xid, xsub, xiss, xaud, xiat, xnbf, xexp⟩ := x
  unfold ITokenMP
  dsimp only
  unfold decIToken
  split_ifs <;>
    simp_all [lookupMP_cons, lookupMP_nil, kTid, kSub, kIss, kAud, kIat, kNbf, kExp,
      getBinV, getStrV, getIntV]

set_option maxHeartbeats 2000000 in
theorem decIFootprint_IFootprintMP (x : IFootprint) :
    (match IFootprintMP x with
     | .map es => decIFootprint es
     | .prim _ => none) = some x := by
  obtain ⟨xts, xadr, xref, xorg, xuag, xuos, xudv⟩ := x
  unfold IFootprintMP
  dsimp only
  unfold decIFootprint
  split_ifs <;>
    simp_all [lookupMP_cons, lookupMP_nil, kTsp, kAdr, kRef, kOrg, kUag, kUos, kUdv,
      getBinV, getStrV, getIntV]

theorem tokenInternal_roundtrip (t : Token) (hid : t.Id.length = 16) (hsub : t.Subject.length = 16)
    (hdeg : t.Audience ≠ [[]]) (hnul : ∀ a ∈ t.Audience, 0 ∉ a) :
    Token.fromInternal t.toInternal = { t with fpi := none, fpc := none } := by
  obtain ⟨tid, tsub, tiss, taud, tiat, tnbf, texp, tfpi, tfpc⟩ := t
  simp only [Token.toInternal, Token.fromInternal]
  simp only at hid hsub hdeg hnul
  congr 1
  · by_cases h : tid = zeroUUID
    · simp [h, zeroUUID]
    · simp [h, hid]
  · by_cases h : tsub = zeroUUID
    · simp [h, zeroUUID]
    · simp [h, hsub]
  · by_cases h : taud = []
    · simp [h, joinNul, List.intercalate]
    · have hne := joinNul_ne_nil taud h hdeg hnul
      rw [if_pos (by simp only [ne_eq, List.length_eq_zero]; exact hne)]
      exact splitNul_joinNul taud h hnul

theorem footprintInternal_roundtrip (fp : Footprint)
    (hua : match fp.UserAgent with
           | some ua => ∀ f ∈ [ua.Family, ua.Major, ua.Minor, ua.Patch], 0 ∉ f
           | none => True)
    (hos : match fp.Os with
           | some os => ∀ f ∈ [os.Family, os.Major, os.Minor, os.Patch, os.PatchMinor], 0 ∉ f
           | none => True)
    (hdv : match fp.Device with
           | some dv => ∀ f ∈ [dv.Brand, dv.Family, dv.Model], 0 ∉ f
           | none => True) :
    Footprint.fromInternal fp.toInternal = fp := by
  obtain ⟨fts, fadr, fref, forg, fua, fos, fdv⟩ := fp
  simp only [Footprint.toInternal, Footprint.fromInternal]
  congr 1
  · cases fua with
    | none => simp
    | some ua =>
        obtain ⟨u1, u2, u3, u4⟩ := ua
        simp only at hua
        have hne : joinNul [u1, u2, u3, u4] ≠ [] := by
          rw [joinNul_cons_cons]
          simp
        rw [if_pos (by simp only [ne_eq, List.length_eq_zero]; exact hne)]
        rw [splitNul_joinNul _ (by simp) hua]
        simp [List.getD]
  · cases fos with
    | none => simp
    | some os =>
        obtain ⟨o1, o2, o3, o4, o5⟩ := os
        simp only at hos
        have hne : joinNul [o1, o2, o3, o4, o5] ≠ [] := by
          rw [joinNul_cons_cons]
          simp
        rw [if_pos (by simp only [ne_eq, List.length_eq_zero]; exact hne)]
        rw [splitNul_joinNul _ (by simp) hos]
        simp [List.getD]
  · cases fdv with
    | none => simp
    | some dv =>
        obtain ⟨d1, d2, d3⟩ := dv
        simp only at hdv
        have hne : joinNul [d1, d2, d3] ≠ [] := by
          rw [joinNul_cons_cons]
          simp
        rw [if_pos (by simp only [ne_eq, List.length_eq_zero]; exact hne)]
        rw [splitNul_joinNul _ (by simp) hdv]
        simp [List.getD]

theorem ITokenMP_wf (x : IToken)
    (hid : x.Id.length < 2 ^ 32) (hsub : x.Subject.length < 2 ^ 32)
    (hiss : x.Issuer.length < 2 ^ 32) (haud : x.Audience.length < 2 ^ 32)
    (hiat : i64 x.Issued) (hnbf : i64 x.NotBefore) (hexp : i64 x.Expires) :
    (ITokenMP x).wf := by
  unfold ITokenMP MP.wf
  refine ⟨?_, ?_⟩
  · split_ifs <;> simp
  · refine List.forall_mem_append.mpr ⟨List.forall_mem_append.mpr
      ⟨List.forall_mem_append.mpr ⟨List.forall_mem_append.mpr
        ⟨List.forall_mem_append.mpr ⟨?_, ?_⟩, ?_⟩, ?_⟩, ?_⟩, ?_⟩
    · intro e he
      simp only [List.not_mem_nil, List.mem_cons, or_false] at he
      rcases he with rfl | rfl
      · refine ⟨by simp [kTid], ?_⟩
        split_ifs <;> simp [MPV.wf] <;> omega
      · refine ⟨by simp [kSub], ?_⟩
        split_ifs <;> simp [MPV.wf] <;> omega
    · split_ifs <;> intro e he <;> simp only [List.mem_singleton, List.not_mem_nil] at he
      subst he
      exact ⟨by simp [kIss], hiss⟩
    · split_ifs <;> intro e he <;> simp only [List.mem_singleton, List.not_mem_nil] at he
      subst he
      exact ⟨by simp [kAud], haud⟩
    · intro e he
      simp only [List.mem_singleton] at he
      subst he
      exact ⟨by simp [kIat], hiat⟩
    · split_ifs <;> intro e he <;> simp only [List.mem_singleton, List.not_mem_nil] at he
      subst he
      exact ⟨by simp [kNbf], hnbf⟩
    · split_ifs <;> intro e he <;> simp only [List.mem_singleton, List.not_mem_nil] at he
      subst he
      exact ⟨by simp [kExp], hexp⟩

theorem ITokenMP_bytesLT (x : IToken)
    (hid : strB x.Id) (hsub : strB x.Subject) (hiss : strB x.Issuer) (haud : strB x.Audience) :
    (ITokenMP x).bytesLT := by
  unfold ITokenMP MP.bytesLT
  refine List.forall_mem_append.mpr ⟨List.forall_mem_append.mpr
    ⟨List.forall_mem_append.mpr ⟨List.forall_mem_append.mpr
      ⟨List.forall_mem_append.mpr ⟨?_, ?_⟩, ?_⟩, ?_⟩, ?_⟩, ?_⟩
  · intro e he
    simp only [List.not_mem_nil, List.mem_cons, or_false] at he
    rcases he with rfl | rfl
    · refine ⟨by intro b hb; simp [kTid] at hb; omega, ?_⟩
      split_ifs <;> simp_all [MPV.bytesLT, strB]
    · refine ⟨by intro b hb; simp [kSub] at hb; omega, ?_⟩
      split_ifs <;> simp_all [MPV.bytesLT, strB]
  · split_ifs <;> intro e he <;> simp only [List.mem_singleton, List.not_mem_nil] at he
    subst he
    exact ⟨by intro b hb; simp [kIss] at hb; omega, hiss⟩
  · split_ifs <;> intro e he <;> simp only [List.mem_singleton, List.not_mem_nil] at he
    subst he
    exact ⟨by intro b hb; simp [kAud] at hb; omega, haud⟩
  · intro e he
    simp only [List.mem_singleton] at he
    subst he
    exact ⟨by intro b hb; simp [kIat] at hb; omega, trivial⟩
  · split_ifs <;> intro e he <;> simp only [List.mem_singleton, List.not_mem_nil] at he
    subst he
    exact ⟨by intro b hb; simp [kNbf] at hb; omega, trivial⟩
  · split_ifs <;> intro e he <;> simp only [List.mem_singleton, List.not_mem_nil] at he
    subst he
    exact ⟨by intro b hb; simp [kExp] at hb; omega, trivial⟩

theorem IFootprintMP_wf (x : IFootprint)
    (hts : i64 x.Timestamp) (hadr : x.RemoteAddr.length < 2 ^ 32)
    (href : x.Referer.length < 2 ^ 32) (horg : x.Origin.length < 2 ^ 32)
    (huag : x.UserAgent.length < 2 ^ 32) (huos : x.Os.length < 2 ^ 32)
    (hudv : x.Device.length < 2 ^ 32) :
    (IFootprintMP x).wf := by
  unfold IFootprintMP MP.wf
  refine ⟨?_, ?_⟩
  · split_ifs <;> simp
  · refine List.forall_mem_append.mpr ⟨List.forall_mem_append.mpr
      ⟨List.forall_mem_append.mpr ⟨List.forall_mem_append.mpr
        ⟨List.forall_mem_append.mpr ⟨List.forall_mem_append.mpr ⟨?_, ?_⟩, ?_⟩, ?_⟩, ?_⟩, ?_⟩, ?_⟩
    · split_ifs <;> intro e he <;> simp only [List.mem_singleton, List.not_mem_nil] at he
      subst he
      exact ⟨by simp [kTsp], hts⟩
    · split_ifs <;> intro e he <;> simp only [List.mem_singleton, List.not_mem_nil] at he
      subst he
      exact ⟨by simp [kAdr], hadr⟩
    · split_ifs <;> intro e he <;> simp only [List.mem_singleton, List.not_mem_nil] at he
      subst he
      exact ⟨by simp [kRef], href⟩
    · split_ifs <;> intro e he <;> simp only [List.mem_singleton, List.not_mem_nil] at he
      subst he
      exact ⟨by simp [kOrg], horg⟩
    · split_ifs <;> intro e he <;> simp only [List.mem_singleton, List.not_mem_nil] at he
      subst he
      exact ⟨by simp [kUag], huag⟩
    · split_ifs <;> intro e he <;> simp only [List.mem_singleton, List.not_mem_nil] at he
      subst he
      exact ⟨by simp [kUos], huos⟩
    · split_ifs <;> intro e he <;> simp only [List.mem_singleton, List.not_mem_nil] at he
      subst he
      exact ⟨by simp [kUdv], hudv⟩

theorem IFootprintMP_bytesLT (x : IFootprint)
    (hadr : strB x.RemoteAddr) (href : strB x.Referer) (horg : strB x.Origin)
    (huag : strB x.UserAgent) (huos : strB x.Os) (hudv : strB x.Device) :
    (IFootprintMP x).bytesLT := by
  unfold IFootprintMP MP.bytesLT
  refine List.forall_mem_append.mpr ⟨List.forall_mem_append.mpr
    ⟨List.forall_mem_append.mpr ⟨List.forall_mem_append.mpr
      ⟨List.forall_mem_append.mpr ⟨List.forall_mem_append.mpr ⟨?_, ?_⟩, ?_⟩, ?_⟩, ?_⟩, ?_⟩, ?_⟩
  · split_ifs <;> intro e he <;> simp only [List.mem_singleton, List.not_mem_nil] at he
    subst he
    exact ⟨by intro b hb; simp [kTsp] at hb; omega, trivial⟩
  · split_ifs <;> intro e he <;> simp only [List.mem_singleton, List.not_mem_nil] at he
    subst he
    exact ⟨by intro b hb; simp [kAdr] at hb; omega, hadr⟩
  · split_ifs <;> intro e he <;> simp only [List.mem_singleton, List.not_mem_nil] at he
    subst he
    exact ⟨by intro b hb; simp [kRef] at hb; omega, href⟩
  · split_ifs <;> intro e he <;> simp only [List.mem_singleton, List.not_mem_nil] at he
    subst he
    exact ⟨by intro b hb; simp [kOrg] at hb; omega, horg⟩
  · split_ifs <;> intro e he <;> simp only [List.mem_singleton, List.not_mem_nil] at he
    subst he
    exact ⟨by intro b hb; simp [kUag] at hb; omega, huag⟩
  · split_ifs <;> intro e he <;> simp only [List.mem_singleton, List.not_mem_nil] at he
    subst he
    exact ⟨by intro b hb; simp [kUos] at hb; omega, huos⟩
  · split_ifs <;> intro e he <;> simp only [List.mem_singleton, List.not_mem_nil] at he
    subst he
    exact ⟨by intro b hb; simp [kUdv] at hb; omega, hudv⟩

/-! ### Byte-level record round trips -/

theorem Footprint.wfEnc_fields (fp : Footprint) (h : fp.wfEnc) :
    i64 fp.toInternal.Timestamp ∧ fp.toInternal.RemoteAddr.length < 2 ^ 32 ∧
    fp.toInternal.Referer.length < 2 ^ 32 ∧ fp.toInternal.Origin.length < 2 ^ 32 ∧
    fp.toInternal.UserAgent.length < 2 ^ 32 ∧ fp.toInternal.Os.length < 2 ^ 32 ∧
    fp.toInternal.Device.length < 2 ^ 32 := by
  obtain ⟨h1, h2, h3, h4, h5, h6, h7, h8, h9, h10⟩ := h
  unfold Footprint.toInternal
  refine ⟨h1, h3, h5, h7, ?_, ?_, ?_⟩
  · cases hua : fp.UserAgent with
    | none => simp
    | some ua =>
        rw [hua] at h8
        simpa using h8.2
  · cases hos : fp.Os with
    | none => simp
    | some os =>
        rw [hos] at h9
        simpa using h9.2
  · cases hdv : fp.Device with
    | none => simp
    | some dv =>
        rw [hdv] at h10
        simpa using h10.2

theorem Footprint.wfEnc_strB (fp : Footprint) (h : fp.wfEnc) :
    strB fp.toInternal.RemoteAddr ∧ strB fp.toInternal.Referer ∧
    strB fp.toInternal.Origin ∧ strB fp.toInternal.UserAgent ∧
    strB fp.toInternal.Os ∧ strB fp.toInternal.Device := by
  obtain ⟨h1, h2, h3, h4, h5, h6, h7, h8, h9, h10⟩ := h
  unfold Footprint.toInternal
  refine ⟨h2, h4, h6, ?_, ?_, ?_⟩
  · cases hua : fp.UserAgent with
    | none => intro x hx; simp at hx
    | some ua =>
        rw [hua] at h8
        refine joinNul_strB _ ?_
        intro a ha
        exact (h8.1 a ha).2
  · cases hos : fp.Os with
    | none => intro x hx; simp at hx
    | some os =>
        rw [hos] at h9
        refine joinNul_strB _ ?_
        intro a ha
        exact (h9.1 a ha).2
  · cases hdv : fp.Device with
    | none => intro x hx; simp at hx
    | some dv =>
        rw [hdv] at h10
        refine joinNul_strB _ ?_
        intro a ha
        exact (h10.1 a ha).2

theorem fpBytes_roundtrip (fp : Option Footprint)
    (h : match fp with | some fp => fp.wfEnc | none => True) :
    decFpBytes (encFpBytes fp) = some (fp, []) := by
  cases fp with
  | none => rfl
  | some fp =>
      obtain ⟨w1, w2, w3, w4, w5, w6, w7⟩ := Footprint.wfEnc_fields fp h
      have hdm := decMP_encMP _ (IFootprintMP_wf _ w1 w2 w3 w4 w5 w6 w7) []
      rw [List.append_nil] at hdm
      have hd := decIFootprint_IFootprintMP fp.toInternal
      unfold encFpBytes decFpBytes
      dsimp only
      rw [hdm]
      unfold IFootprintMP at hd ⊢
      dsimp only at hd ⊢
      rw [hd]
      dsimp only
      rw [footprintInternal_roundtrip fp ?hua ?hos ?hdv]
      case hua =>
        cases hua : fp.UserAgent with
        | none => trivial
        | some ua =>
            have h8 := h.2.2.2.2.2.2.2.1
            rw [hua] at h8
            intro f hf
            exact (h8.1 f hf).1
      case hos =>
        cases hos : fp.Os with
        | none => trivial
        | some os =>
            have h9 := h.2.2.2.2.2.2.2.2.1
            rw [hos] at h9
            intro f hf
            exact (h9.1 f hf).1
      case hdv =>
        cases hdv : fp.Device with
        | none => trivial
        | some dv =>
            have h10 := h.2.2.2.2.2.2.2.2.2
            rw [hdv] at h10
            intro f hf
            exact (h10.1 f hf).1

theorem tokenBytes_roundtrip (t : Token) (h : t.wfEnc) :
    decTokenBytes (encTokenBytes (some t)) =
      some (some { t with fpi := none, fpc := none }, []) := by
  obtain ⟨q1, q2, q3, q4, q5, q6, q7, q8, q9, q10, q11, q12, q13, q14⟩ := h
  have w1 : t.toInternal.Id.length < 2 ^ 32 := by
    unfold Token.toInternal
    split_ifs <;> simp <;> omega
  have w2 : t.toInternal.Subject.length < 2 ^ 32 := by
    unfold Token.toInternal
    split_ifs <;> simp <;> omega
  have w3 : t.toInternal.Issuer.length < 2 ^ 32 := q6
  have w4 : t.toInternal.Audience.length < 2 ^ 32 := q9
  have hdm := decMP_encMP _ (ITokenMP_wf _ w1 w2 w3 w4 q10 q11 q12) []
  rw [List.append_nil] at hdm
  have hd := decIToken_ITokenMP t.toInternal
  unfold encTokenBytes decTokenBytes
  dsimp only
  rw [hdm]
  unfold ITokenMP at hd ⊢
  dsimp only at hd ⊢
  rw [hd]
  dsimp only
  rw [tokenInternal_roundtrip t q1 q3 q7 (fun a ha => (q8 a ha).1)]

/-! ## Serializer (`serializer` package)

`genericSerialize` / `genericDeserialize` of the serializer package,
parameterised (as in the source) over the optional sign-writing and
signature-comparing callbacks of the concrete serializer. -/

/-- Errors of the `serializer` package: `ErrBadFormat`, `ErrBadSign`, and
the pass-through msgpack decode failure. -/
inductive SErr : Type
  | badFormat : SErr
  | badSign : SErr
  | codecFail : SErr
deriving DecidableEq, Repr

/-- The constant `header = "auth."`. -/
def header : List ℕ := [97, 117, 116, 104, 46]

/-- `genericSerialize`: msgpack-encode the payload, emit
`header ++ b64(payload)` and, when a sign callback is present,
`++ "." ++ b64(sign(payload))`. -/
def genericSerialize (signFn : Option (List ℕ → List ℕ)) (t : Option Token) : List ℕ :=
  let payload := encTokenBytes t
  header ++ b64encode payload ++
    (match signFn with
     | none => []
     | some f => 46 :: b64encode (f payload))

/-- `genericDeserialize`: require the `"auth."` prefix; without a verifier
decode base64 then msgpack directly; with a verifier split at the FIRST
`'.'` (rejecting only a missing dot or a trailing dot), base64-decode the
two segments, verify, then msgpack-decode the payload.  Base64 errors are
reported as `badFormat`.  (The source decodes the two segments in two
concurrent tasks that are joined before the signature check; the model
performs the same two decodes sequentially.) -/
def genericDeserialize (cmp : Option (List ℕ → List ℕ → Option SErr)) (s : List ℕ) :
    Except SErr (Option Token) :=
  if s.length ≤ 5 ∨ s.take 5 ≠ header then .error .badFormat
  else
    let s1 := s.drop 5
    match cmp with
    | none =>
      match b64decode s1 with
      | none => .error .badFormat
      | some p =>
        match decTokenBytes p with
        | none => .error .codecFail
        | some (t, _) => .ok t
    | some cmpf =>
      match s1.findIdx? (fun c => c = 46) with
      | none => .error .badFormat
      | some i =>
        if i = s1.length - 1 then .error .badFormat
        else
          match b64decode (s1.take i), b64decode (s1.drop (i + 1)) with
          | some p, some sig =>
            (match cmpf p sig with
             | some e => .error e
             | none =>
               match decTokenBytes p with
               | none => .error .codecFail
               | some (t, _) => .ok t)
          | _, _ => .error .badFormat

/-- A serializer as the Store consumes it: the two optional callbacks that
distinguish the sign methods (`SignNone` has neither). -/
structure Serlr where
  signFn : Option (List ℕ → List ℕ)
  cmpFn : Option (List ℕ → List ℕ → Option SErr)

/-- `Serializer.Serialize` through the generic path. -/
def Serlr.serialize (sr : Serlr) (t : Option Token) : List ℕ :=
  genericSerialize sr.signFn t

/-- `Serializer.Deserialize` through the generic path. -/
def Serlr.deserialize (sr : Serlr) (s : List ℕ) : Except SErr (Option Token) :=
  genericDeserialize sr.cmpFn s

/-- The `SignNone` serializer returned by `serializer.New(SignNone, _, _)`. -/
def signNoneSerlr : Serlr := ⟨none, none⟩

/-! ## ECDSA signature layout (`cryptoSerializer.ecdsaSign` / `ecdsaCompare`)

The big-integer signature halves `r`, `s` produced by `ecdsa.Sign` and the
verification predicate `ecdsa.Verify` are external crypto primitives and
enter as parameters (`rb`/`sb` are their big-endian byte strings, `verify`
the verification oracle).  `pBitLen` is `key.Params().P.BitLen()`, the bit
length of the curve's field prime, exactly as the source reads it. -/

/-- Go's `copy(dst[i:], src)`: overwrite at most `len(dst) - i` bytes. -/
def writeAt (dst : List ℕ) (i : ℕ) (src : List ℕ) : List ℕ :=
  dst.take i ++ src.take (dst.length - i) ++ dst.drop (i + (src.take (dst.length - i)).length)

/-- `ecdsaSign`: `n = P.BitLen() / 4`, `k = n / 2`; the signature buffer is
`n` zero bytes with `rb` copied in ending at `k` and `sb` copied in ending
at `n`.  Go panics (negative slice index) when a half is longer than its
region; that case is `none`. -/
def ecdsaSign (pBitLen : ℕ) (rb sb : List ℕ) : Option (List ℕ) :=
  let n := pBitLen / 4
  let k := n / 2
  if rb.length ≤ k ∧ sb.length ≤ n then
    some (writeAt (writeAt (List.replicate n 0) (k - rb.length) rb) (n - sb.length) sb)
  else none

/-- `ecdsaCompare`: `k = P.BitLen() / 8`; reject any signature whose length
is not `2 * k`, otherwise split in half and consult the verifier. -/
def ecdsaCompare (pBitLen : ℕ) (verify : ℕ → ℕ → Bool) (sig : List ℕ) : Option SErr :=
  let k := pBitLen / 8
  if sig.length ≠ 2 * k then some .badSign
  else if verify (beVal (sig.take k)) (beVal (sig.drop k)) then none
  else some .badSign

/-! ## Store errors and validation (`token/error.go`, `token/token.go`) -/

/-- `token.ValidationError`: accumulated reason strings and the two flags
set by `(*Token).validate`. -/
structure ValidationError where
  errstrs : List String
  exp : Bool
  nbf : Bool
deriving DecidableEq, Repr

/-- Errors surfaced by the Store (`token/error.go`), plus the serializer
errors it forwards. -/
inductive StErr : Type
  | noSerializer : StErr
  | noBackend : StErr
  | unregistered : StErr
  | nilTokenArg : StErr
  | backendError : StErr
  | codecError : StErr
  | validation : ValidationError → StErr
  | ser : SErr → StErr
deriving DecidableEq, Repr

/-- Outcome of a Store operation.  `nilDeref` is a Go nil-pointer
dereference (a crash, not a returned error): it is reached exactly when a
redis method is invoked on an absent backend handle. -/
inductive Res (α : Type) : Type
  | ok : α → Res α
  | err : StErr → Res α
  | nilDeref : Res α
deriving DecidableEq, Repr

/-- `(*Token).validate(nbfCheck)`: accumulate every failing field rule
into one `ValidationError`; return it when anything failed.  The clock
reads of the source (one per comparison) are modelled by the single
instant `now` (seconds). -/
def Token.validate (t : Token) (nbfCheck : Bool) (now : ℤ) : Option ValidationError :=
  let ve0 : ValidationError := ⟨[], false, false⟩
  let ve1 := if t.Id = zeroUUID then
      { ve0 with errstrs := ve0.errstrs ++ ["Token.Id is invalid (zero-UUID)"] } else ve0
  let ve2 := if t.Subject = zeroUUID then
      { ve1 with errstrs := ve1.errstrs ++ ["Token.Subject is invalid (zero-UUID)"] } else ve1
  let ve3 := if t.Issued = 0 then
      { ve2 with errstrs := ve2.errstrs ++ ["Token.Issued is invalid (zero-Timestamp)"] }
    else if t.Issued > now then
      { ve2 with errstrs := ve2.errstrs ++ ["Token.Issued is > time.Now()"] } else ve2
  let ve4 := if t.Expires ≠ 0 ∧ t.Expires < now + 5 then
      { ve3 with errstrs := ve3.errstrs ++ ["Token.Expires is < time.Now()"], exp := true }
    else ve3
  let ve5 := if nbfCheck = true ∧ t.NotBefore ≠ 0 ∧ t.NotBefore > now - 5 then
      { ve4 with errstrs := ve4.errstrs ++ ["Token.NotBefore is < time.Now()"], nbf := true }
    else ve4
  if ve5.errstrs ≠ [] ∨ ve5.exp = true ∨ ve5.nbf = true then some ve5 else none

/-! ## Backend (Redis hash records) and Store (`token/store.go`) -/

/-- One stored hash record: the three fields `_`, `I`, `C` and the
optional expire-at time (seconds). -/
structure StorageRec where
  tkF : List ℕ
  fIF : List ℕ
  fCF : List ℕ
  expAt : Option ℤ
deriving DecidableEq, Repr

/-- The connected backend: an association list from storage keys to hash
records. -/
abbrev Backend := List (List ℕ × StorageRec)

/-- `EXISTS`/`HMGET` lookup. -/
def bLookup (bk : Backend) (k : List ℕ) : Option StorageRec :=
  (bk.find? fun e => e.1 = k).map (·.2)

/-- `HMSET` of the three fields (an existing record keeps its expiry). -/
def bHMSet (bk : Backend) (k : List ℕ) (a b c : List ℕ) : Backend :=
  match bLookup bk k with
  | some _ => bk.map fun e => if e.1 = k then (e.1, { e.2 with tkF := a, fIF := b, fCF := c }) else e
  | none => bk ++ [(k, ⟨a, b, c, none⟩)]

/-- `EXPIREAT`. -/
def bExpireAt (bk : Backend) (k : List ℕ) (ts : ℤ) : Backend :=
  bk.map fun e => if e.1 = k then (e.1, { e.2 with expAt := some ts }) else e

/-- `HSET` of the `C` field. -/
def bHSetC (bk : Backend) (k : List ℕ) (c : List ℕ) : Backend :=
  bk.map fun e => if e.1 = k then (e.1, { e.2 with fCF := c }) else e

/-- `DEL`. -/
def bDel (bk : Backend) (k : List ℕ) : Backend :=
  bk.filter fun e => ¬ e.1 = k

/-- `token.Store`.  `redis = none` models a nil backend handle and
`serlr = none` a nil serializer.  `DefaultExp` is a `time.Duration`
(nanoseconds). -/
structure Store where
  redis : Option Backend
  serlr : Option Serlr
  Namespace : List ℕ
  Issuer : List ℕ
  Audience : List (List ℕ)
  DefaultExp : ℤ

/-- `NewStore`: attaches the given client and serializer, a namespace
(`"store-"` plus eight z-base-32 characters drawn from the random source,
passed in here), and the 72-hour default expiry. -/
def NewStore (client : Option Backend) (serlr : Option Serlr) (nsp : List ℕ) : Store :=
  { redis := client
    serlr := serlr
    Namespace := nsp
    Issuer := []
    Audience := []
    DefaultExp := 259200000000000 }

/-- `(*Store).makeStorageKey`. -/
def Store.makeStorageKey (st : Store) (t : Option Token) (p : Bool) : List ℕ :=
  match t with
  | none => []
  | some t =>
    let s := if st.Namespace.length ≠ 0 then st.Namespace ++ [58] else []
    let s := s ++ b64encode t.Subject ++ [58]
    if p then s ++ [42] else s ++ b64encode t.Id

/-- `token.New`: fresh id from the random source, `Issued` from the clock
(`nowNs` in nanoseconds, `Unix()` divides to seconds), `Expires` only when
the duration is non-zero. -/
def TokenNew (sub : List ℕ) (iss : List ℕ) (aud : List (List ℕ)) (exp : ℤ)
    (freshId : List ℕ) (nowNs : ℤ) : Token :=
  { Id := freshId
    Subject := sub
    Issuer := iss
    Audience := aud
    Issued := nowNs / 1000000000
    NotBefore := 0
    Expires := if exp ≠ 0 then (nowNs + exp) / 1000000000 else 0
    fpi := none
    fpc := none }

/-- `makeFootprint`: external IP and UA parsing enter as parameters; an
unparseable non-empty address discards the whole footprint. -/
def makeFootprint (parseIP : List ℕ → Option (List ℕ))
    (uaParse : List ℕ → Option (Option UserAgent × Option Os × Option Device))
    (nowSec : ℤ) (ts : ℤ) (addr refr orig uags : List ℕ) : Option Footprint :=
  let fp0 : Footprint :=
    { Timestamp := if ts = 0 then nowSec else ts
      RemoteAddr := []
      Referer := refr
      Origin := orig
      UserAgent := none
      Os := none
      Device := none }
  let step1 : Option Footprint :=
    if addr.length ≠ 0 then
      match parseIP addr with
      | none => none
      | some ip => some { fp0 with RemoteAddr := ip }
    else some fp0
  match step1 with
  | none => none
  | some fp1 =>
    if uags.length ≠ 0 then
      match uaParse uags with
      | some (ua, os, dv) => some { fp1 with UserAgent := ua, Os := os, Device := dv }
      | none => some fp1
    else some fp1

/-- `(*Store).encStorageData`: a nil token gives the three one-byte nil
sentinels, otherwise the three msgpack blobs. -/
def Store.encStorageData (t : Option Token) : List ℕ × List ℕ × List ℕ :=
  match t with
  | none => ([0xC0], [0xC0], [0xC0])
  | some t => (encTokenBytes (some t), encFpBytes t.fpi, encFpBytes t.fpc)

/-- `(*Store).decStorageData`: an empty or nil-sentinel token blob yields
a nil token (ignoring the footprint blobs); otherwise decode the token and
both footprints.  Decoding a token blob that denotes a nil token (other
than the exact sentinel) makes the source dereference the nil pointer. -/
def Store.decStorageData (tk bi bc : List ℕ) : Res (Option Token) :=
  if tk = [] ∨ tk = [0xC0] then .ok none
  else
    match decTokenBytes tk with
    | none => .err .codecError
    | some (none, _) => .nilDeref
    | some (some t0, _) =>
      match decFpBytes bi with
      | none => .err .codecError
      | some (fi, _) =>
        match decFpBytes bc with
        | none => .err .codecError
        | some (fc, _) => .ok (some { t0 with fpi := fi, fpc := fc })

/-- `(*Store).registerToken`: validate without the nbf check, encode the
three blobs, `HMSET` them, and `EXPIREAT t.Expires + 5` when the token
expires.  Touching the backend with a nil handle dereferences it. -/
def Store.registerToken (st : Store) (t : Token) (nowSec : ℤ) : Res Unit × Store :=
  match t.validate false nowSec with
  | some ve => (.err (.validation ve), st)
  | none =>
    let (a, b, c) := Store.encStorageData (some t)
    match st.redis with
    | none => (.nilDeref, st)
    | some bk =>
      let sk := st.makeStorageKey (some t) false
      let bk1 := bHMSet bk sk a b c
      let bk2 := if t.Expires ≠ 0 then bExpireAt bk1 sk (t.Expires + 5) else bk1
      (.ok (), { st with redis := some bk2 })

/-- `(*Store).Issue`: requires a serializer; `exp = 0` becomes the Store
default and `-1` (nanosecond) becomes "no expiry"; an issue footprint is
built only when one of the four strings is non-empty; the token is
serialized and then registered. -/
def Store.Issue (st : Store) (parseIP : List ℕ → Option (List ℕ))
    (uaParse : List ℕ → Option (Option UserAgent × Option Os × Option Device))
    (freshId : List ℕ) (nowNs : ℤ)
    (sub : List ℕ) (exp : ℤ)
    (remoteAddr referer origin userAgent : List ℕ) : Res (List ℕ) × Store :=
  match st.serlr with
  | none => (.err .noSerializer, st)
  | some sr =>
    let exp1 := if exp = 0 then st.DefaultExp else exp
    let exp2 := if exp1 = -1 then 0 else exp1
    let setFpI := remoteAddr.length ≠ 0 ∨ referer.length ≠ 0 ∨
      origin.length ≠ 0 ∨ userAgent.length ≠ 0
    let t0 := TokenNew sub st.Issuer st.Audience exp2 freshId nowNs
    let t := if setFpI then
        { t0 with fpi := (makeFootprint parseIP uaParse (nowNs / 1000000000) 0
            remoteAddr referer origin userAgent) }
      else t0
    let s := sr.serialize (some t)
    match st.registerToken t (nowNs / 1000000000) with
    | (.ok _, st') => (.ok s, st')
    | (.err e, st') => (.err e, st')
    | (.nilDeref, st') => (.nilDeref, st')

/-- `(*Store).accessToken`: validate with the nbf check, require the
record to exist (else `Unregistered`), read field `I` into `fpi`, write
the encoded `fpc` back into field `C`. -/
def Store.accessToken (st : Store) (t : Token) (nowSec : ℤ) : Res Token × Store :=
  match t.validate true nowSec with
  | some ve => (.err (.validation ve), st)
  | none =>
    match st.redis with
    | none => (.nilDeref, st)
    | some bk =>
      let sk := st.makeStorageKey (some t) false
      match bLookup bk sk with
      | none => (.err .unregistered, st)
      | some rec0 =>
        if rec0.fIF.length = 0 then (.err .backendError, st)
        else
          match decFpBytes rec0.fIF with
          | none => (.err .codecError, st)
          | some (fi, _) =>
            let t1 := { t with fpi := fi }
            let fpb := encFpBytes t1.fpc
            (.ok t1, { st with redis := some (bHSetC bk sk fpb) })

/-- `(*Store).Access`: requires a serializer; deserializes; a nil token
with a nil error is returned as-is WITHOUT touching the backend; otherwise
the current footprint is built and `accessToken` runs. -/
def Store.Access (st : Store) (parseIP : List ℕ → Option (List ℕ))
    (uaParse : List ℕ → Option (Option UserAgent × Option Os × Option Device))
    (nowSec : ℤ) (s : List ℕ)
    (remoteAddr referer origin userAgent : List ℕ) : Res (Option Token) × Store :=
  match st.serlr with
  | none => (.err .noSerializer, st)
  | some sr =>
    match sr.deserialize s with
    | .error e => (.err (.ser e), st)
    | .ok none => (.ok none, st)
    | .ok (some t) =>
      let setFpC := remoteAddr.length ≠ 0 ∨ referer.length ≠ 0 ∨
        origin.length ≠ 0 ∨ userAgent.length ≠ 0
      let t1 := if setFpC then
          { t with fpc := (makeFootprint parseIP uaParse nowSec 0
              remoteAddr referer origin userAgent) }
        else t
      match st.accessToken t1 nowSec with
      | (.ok t2, st') => (.ok (some t2), st')
      | (.err e, st') => (.err e, st')
      | (.nilDeref, st') => (.nilDeref, st')

/-- `(*Store).Revoke`: requires a connected backend, rejects a nil token,
fails `Unregistered` when the record is absent, otherwise deletes it. -/
def Store.Revoke (st : Store) (t : Option Token) : Res Unit × Store :=
  match st.redis with
  | none => (.err .noBackend, st)
  | some bk =>
    match t with
    | none => (.err .nilTokenArg, st)
    | some t =>
      let sk := st.makeStorageKey (some t) false
      match bLookup bk sk with
      | none => (.err .unregistered, st)
      | some _ => (.ok (), { st with redis := some (bDel bk sk) })

/-- The dispatch loop of `RevokeN` under the deterministic schedule in
which each spawned task runs to completion before the loop continues (for
a single-element list every schedule agrees with this one). `m` is the
atomic counter, `ec` the buffered error channel. Mirroring the source, a
task increments the counter AFTER its `Revoke` call REGARDLESS of the
call's outcome, and only non-`Unregistered` errors are posted to the
channel; at the top of each iteration a pending channel value aborts the
loop. -/
def Store.revokeNLoop (st : Store) (ts : List (Option Token)) (m : ℤ) (ec : List StErr) :
    (ℤ × Option StErr) × Store :=
  match ts with
  | [] => ((m, ec.head?), st)
  | t :: rest =>
    match t with
    | none => st.revokeNLoop rest m ec
    | some t =>
      match ec with
      | e :: _ => ((m, some e), st)
      | [] =>
        match st.Revoke (some t) with
        | (.ok _, st') => st'.revokeNLoop rest (m + 1) []
        | (.err e, st') =>
          st'.revokeNLoop rest (m + 1) (if e = .unregistered then [] else [e])
        | (.nilDeref, st') => ((m, none), st')  -- unreachable: Revoke never dereferences a nil handle

/-- `(*Store).RevokeN`: no backend gives `(0, ErrNoBackend)`, an empty
list `(0, nil)`, otherwise the concurrent fan-out loop. -/
def Store.RevokeN (st : Store) (ts : List (Option Token)) : (ℤ × Option StErr) × Store :=
  match st.redis with
  | none => ((0, some .noBackend), st)
  | some _ =>
    if ts.length = 0 then ((0, none), st)
    else st.revokeNLoop ts 0 []

/-- `(*Store).retrieveToken`: `HMGET` of the three fields; a missing
record returns three nils, read as `(nil, nil)`; otherwise the record is
decoded. -/
def Store.retrieveToken (st : Store) (bk : Backend) (k : List ℕ) : Res (Option Token) :=
  match bLookup bk k with
  | none => .ok none
  | some r => Store.decStorageData r.tkF r.fIF r.fCF

/-- A scan pattern produced by `makeStorageKey _ true` ends in `'*'`;
Redis `MATCH` then selects the keys that extend the prefix before it. -/
def patMatch (pat k : List ℕ) : Bool := pat.dropLast.isPrefixOf k

/-- The scan loop of `List` under the schedule in which each spawned task
completes before the cursor advances: a pending channel error aborts the
scan; each key's record is decoded and appended; after the join, any
channel error discards the collected slice. -/
def Store.listLoop (st : Store) (bk : Backend) (keys : List (List ℕ))
    (acc : List Token) (ec : List StErr) : Res (List Token) :=
  match keys with
  | [] =>
    match ec.head? with
    | some e => .err e
    | none => .ok acc
  | k :: rest =>
    match ec with
    | e :: _ => .err e
    | [] =>
      match st.retrieveToken bk k with
      | .ok none => st.listLoop bk rest acc []
      | .ok (some t) => st.listLoop bk rest (acc ++ [t]) []
      | .err e => st.listLoop bk rest acc [e]
      | .nilDeref => .nilDeref

/-- `(*Store).List`: requires a connected backend; a nil template yields
`(nil, nil)`; otherwise scan the catch-all pattern of the template's
subject and decode every hit. -/
def Store.List (st : Store) (t : Option Token) : Res (List Token) :=
  match st.redis with
  | none => .err .noBackend
  | some bk =>
    match t with
    | none => .ok []
    | some t =>
      let pat := st.makeStorageKey (some t) true
      let keys := (bk.filter fun e => patMatch pat e.1).map (·.1)
      st.listLoop bk keys [] []

/-! ## Claim theorems -/

/-- C7: for every non-nil token `t`, `makeStorageKey(t, false)` equals
`[namespace ":"] b64u(subject) ":" b64u(id)` and `makeStorageKey(t, true)`
equals `[namespace ":"] b64u(subject) ":" "*"`; for a nil token both forms
yield the empty string.  (`58` is `':'`, `42` is `'*'`.) -/
theorem claimC7_key_layout (st : Store) (t : Token) :
    st.makeStorageKey (some t) false =
      (if st.Namespace = [] then [] else st.Namespace ++ [58]) ++
        b64encode t.Subject ++ [58] ++ b64encode t.Id
  ∧ st.makeStorageKey (some t) true =
      (if st.Namespace = [] then [] else st.Namespace ++ [58]) ++
        b64encode t.Subject ++ [58] ++ [42]
  ∧ st.makeStorageKey none false = [] ∧ st.makeStorageKey none true = [] := by
  refine ⟨?_, ?_, rfl, rfl⟩ <;>
    · unfold Store.makeStorageKey
      by_cases h : st.Namespace = []
      · simp [h]
      · simp [h, List.length_eq_zero]

/-- C10: whenever deserialization succeeds but leaves the output token
nil, `Access` returns `(nil, nil)` without consulting the backend: the
store (and in particular its backend state) is untouched and the result is
a nil token with a nil error. -/
theorem claimC10_access_nil_token (st : Store) (sr : Serlr)
    (parseIP : List ℕ → Option (List ℕ))
    (uaParse : List ℕ → Option (Option UserAgent × Option Os × Option Device))
    (nowSec : ℤ) (s remoteAddr referer origin userAgent : List ℕ)
    (hs : st.serlr = some sr) (hd : sr.deserialize s = .ok none) :
    st.Access parseIP uaParse nowSec s remoteAddr referer origin userAgent = (.ok none, st) := by
  unfold Store.Access
  rw [hs]
  dsimp only
  rw [hd]

/-- Witness for C10 at the concrete input of the claim: the store has NO
backend at all and a `SignNone` serializer, and the input is `"auth."`
followed by `"wA"`, the base64url encoding of the single nil byte `0xC0`;
`Access` returns a nil token and a nil error. -/
theorem claimC10_access_nil_token_witness :
    Store.Access (NewStore none (some signNoneSerlr) []) (fun _ => none) (fun _ => none) 0
      [97, 117, 116, 104, 46, 119, 65] [] [] [] [] =
      (.ok none, NewStore none (some signNoneSerlr) []) := by
  exact claimC10_access_nil_token (NewStore none (some signNoneSerlr) []) signNoneSerlr
    (fun _ => none) (fun _ => none) 0 [97, 117, 116, 104, 46, 119, 65] [] [] [] [] rfl rfl

/-- C3 (counterexample): the input `"auth..AAAA"` — prefix present, EMPTY
payload segment, four-character signature segment — is NOT rejected with
`BadFormat`: the split check only rejects a missing or trailing dot, so the
signature is verified against the empty payload and the (mismatching)
verifier's `BadSign` is returned. -/
theorem claimC3_empty_payload_counterexample :
    genericDeserialize (some fun _ _ => some .badSign)
      [97, 117, 116, 104, 46, 46, 65, 65, 65, 65] = .error .badSign := by
  rfl

/-- C3 (amended): `Deserialize` fails `BadFormat` for every input that
does not begin with `"auth."` (with any verifier configuration); with a
verifier it also fails `BadFormat` when the remainder has no `'.'` at all
or when the first `'.'` is the last character (empty signature segment);
but an input whose payload segment is EMPTY passes the split check and the
signature is verified against the empty payload. -/
theorem claimC3_badformat_amended :
    (∀ cmp s, s.take 5 ≠ header → genericDeserialize cmp s = .error .badFormat)
  ∧ (∀ cmpf s, (s.drop 5).findIdx? (fun c => c = 46) = none →
      genericDeserialize (some cmpf) s = .error .badFormat)
  ∧ (∀ cmpf s i, (s.drop 5).findIdx? (fun c => c = 46) = some i →
      i = (s.drop 5).length - 1 →
      genericDeserialize (some cmpf) s = .error .badFormat)
  ∧ (∀ cmpf r sg, r ≠ [] → b64decode r = some sg →
      genericDeserialize (some cmpf) (header ++ 46 :: r) =
        (match cmpf [] sg with
         | some e => .error e
         | none => .error .codecFail)) := by
  refine ⟨?_, ?_, ?_, ?_⟩
  · intro cmp s h
    unfold genericDeserialize
    rw [if_pos (Or.inr h)]
  · intro cmpf s h
    unfold genericDeserialize
    by_cases hp : s.length ≤ 5 ∨ s.take 5 ≠ header
    · rw [if_pos hp]
    · rw [if_neg hp]
      dsimp only
      rw [h]
  · intro cmpf s i h hi
    unfold genericDeserialize
    by_cases hp : s.length ≤ 5 ∨ s.take 5 ≠ header
    · rw [if_pos hp]
    · rw [if_neg hp]
      dsimp only
      rw [h]
      dsimp only
      rw [if_pos hi]
  · intro cmpf r sg hr hsg
    have hlen : ¬((header ++ 46 :: r).length ≤ 5 ∨ (header ++ 46 :: r).take 5 ≠ header) := by
      push_neg
      constructor
      · simp [header]
      · rw [show (5 : ℕ) = header.length from rfl, List.take_left]
    unfold genericDeserialize
    rw [if_neg hlen]
    dsimp only
    rw [show (header ++ 46 :: r).drop 5 = 46 :: r from by
      rw [show (5 : ℕ) = header.length from rfl, List.drop_left]]
    have hidx : (46 :: r).findIdx? (fun c => c = 46) = some 0 := by
      simp [List.findIdx?_cons]
    rw [hidx]
    dsimp only
    have hrl : r.length ≠ 0 := by simpa [List.length_eq_zero] using hr
    rw [if_neg (by simp only [List.length_cons]; omega)]
    rw [show (46 :: r).drop 1 = r from rfl, hsg,
      show List.take 0 (46 :: r) = ([] : List ℕ) from rfl,
      show b64decode [] = some [] from rfl]
    dsimp only
    cases hc : cmpf [] sg with
    | none => rfl
    | some e => rfl

/-- Witness for C3 (amended) at concrete inputs: a non-`"auth."` input, a
remainder without a dot, a remainder with a trailing dot, and an empty
payload segment whose (always-accepting) verifier verdict is returned. -/
theorem claimC3_badformat_amended_witness :
    genericDeserialize none [120] = .error .badFormat
  ∧ genericDeserialize (some fun _ _ => none) [97, 117, 116, 104, 46, 65] = .error .badFormat
  ∧ genericDeserialize (some fun _ _ => none) [97, 117, 116, 104, 46, 65, 46] = .error .badFormat
  ∧ genericDeserialize (some fun _ _ => none) [97, 117, 116, 104, 46, 46, 65, 65, 65, 65] =
      .error .codecFail :=
  ⟨claimC3_badformat_amended.1 none [120] (by decide),
   claimC3_badformat_amended.2.1 (fun _ _ => none) [97, 117, 116, 104, 46, 65] (by decide),
   claimC3_badformat_amended.2.2.1 (fun _ _ => none) [97, 117, 116, 104, 46, 65, 46] 1
     (by decide) (by decide),
   claimC3_badformat_amended.2.2.2 (fun _ _ => none) [65, 65, 65, 65] [0, 0, 0]
     (by decide) (by decide)⟩

set_option maxRecDepth 4000 in
/-- C4 (counterexample): for a P-521 key (`P.BitLen() = 521`, curve-order
bit length also 521), the emitted signature has `521 / 4 = 130` bytes, not
`2 * ⌈521 / 8⌉ = 132`; and a 130-byte signature is NOT length-rejected by
the verifier (it proceeds to ECDSA verification, here an accepting
oracle), refuting "verification returns BadSign for every candidate whose
total length is not exactly `2 * ⌈curve-order-bits / 8⌉`". -/
theorem claimC4_ecdsa_width_counterexample :
    (ecdsaSign 521 [1] [1]).map List.length = some 130
  ∧ 2 * ((521 + 7) / 8) = 132
  ∧ ecdsaCompare 521 (fun _ _ => true) (List.replicate 130 0) = none := by
  refine ⟨by rfl, by norm_num, ?_⟩
  unfold ecdsaCompare
  simp

theorem writeAt_length (dst : List ℕ) (i : ℕ) (src : List ℕ) (h : i ≤ dst.length) :
    (writeAt dst i src).length = dst.length := by
  unfold writeAt
  simp only [List.length_take, List.length_drop, List.length_append]
  omega

/-- C4 (amended): the signature buffer has `⌊P-bits / 4⌋` bytes — the
FLOOR of a quarter of the bit length of the curve's FIELD PRIME, not the
ceiling-based `2 * ⌈order-bits / 8⌉` — and verification returns `BadSign`
for every candidate whose length differs from `2 * ⌊P-bits / 8⌋`; the two
widths agree exactly when `P-bits mod 8 < 4` (true for the curves of Go's
`crypto/elliptic`: 224, 256, 384 and 521 bits). -/
theorem claimC4_ecdsa_width_amended (pBitLen : ℕ) :
    (∀ rb sb sig, ecdsaSign pBitLen rb sb = some sig → sig.length = pBitLen / 4)
  ∧ (∀ verify sig, sig.length ≠ 2 * (pBitLen / 8) →
      ecdsaCompare pBitLen verify sig = some .badSign)
  ∧ (pBitLen % 8 < 4 → pBitLen / 4 = 2 * (pBitLen / 8)) := by
  refine ⟨?_, ?_, by omega⟩
  · intro rb sb sig h
    unfold ecdsaSign at h
    by_cases hc : rb.length ≤ pBitLen / 4 / 2 ∧ sb.length ≤ pBitLen / 4
    · rw [if_pos hc] at h
      cases h
      have h1 : (writeAt (List.replicate (pBitLen / 4) 0) (pBitLen / 4 / 2 - rb.length)
          rb).length = pBitLen / 4 := by
        rw [writeAt_length _ _ _ (by simp; omega)]
        simp
      rw [writeAt_length _ _ _ (by rw [h1]; omega), h1]
    · rw [if_neg hc] at h
      cases h
  · intro verify sig h
    unfold ecdsaCompare
    rw [if_pos h]

set_option maxRecDepth 4000 in
/-- Witness for C4 (amended) at a P-256 key: a produced signature has
`256 / 4 = 64` bytes, a 63-byte candidate is rejected with `BadSign` even
under an always-accepting verification oracle, and the floor and ceiling
widths agree at 256 bits. -/
theorem claimC4_ecdsa_width_amended_witness :
    (ecdsaSign 256 [1] [1]).map List.length = some 64
  ∧ ecdsaCompare 256 (fun _ _ => true) (List.replicate 63 0) = some .badSign
  ∧ 256 / 4 = 2 * (256 / 8) := by
  refine ⟨?_, ?_, (claimC4_ecdsa_width_amended 256).2.2 (by norm_num)⟩
  · cases hs : ecdsaSign 256 [1] [1] with
    | none => exact absurd hs (by decide)
    | some s =>
        rw [Option.map_some', (claimC4_ecdsa_width_amended 256).1 [1] [1] s hs]
  · exact (claimC4_ecdsa_width_amended 256).2.1 (fun _ _ => true) _ (by simp)

/-- C1 (code evaluation at the failing input): with a connected but EMPTY
backend, revoking the single unregistered token yields `Unregistered` from
`Revoke`, yet `RevokeN` of that one-element list returns
`(revoked_count, err) = (1, nil)` — the goroutine body increments the
atomic counter AFTER the `Revoke` call irrespective of its outcome, so the
silently-skipped `Unregistered` task still counts, where the claim (and
`RevokeN`'s own documentation) require a count of successful deletions,
i.e. 0. -/
theorem claimC1_revokeN_counts_failed_tasks :
    (Store.Revoke (NewStore (some []) none [])
        (some (TokenNew (List.replicate 16 1) [] [] 0 (List.replicate 16 2) 1000000000000))).1 =
      .err .unregistered
  ∧ (Store.RevokeN (NewStore (some []) none [])
        [some (TokenNew (List.replicate 16 1) [] [] 0 (List.replicate 16 2) 1000000000000)]).1 =
      (1, none) := by
  exact ⟨rfl, rfl⟩

set_option maxRecDepth 8000 in
/-- C2 (counterexample): a Store with a serializer but an ABSENT backend
handle does not return `NoBackend` from `Issue`: `Issue` performs no
backend check, proceeds through construction, serialization and
validation, and then invokes a redis method on the nil handle — a
nil-pointer dereference, not the `NoBackend` error the claim requires. -/
theorem claimC2_no_backend_check_counterexample :
    (Store.Issue (NewStore none (some signNoneSerlr) []) (fun _ => none) (fun _ => none)
        (List.replicate 16 2) 1000000000000 (List.replicate 16 1) (-1) [] [] [] []).1 =
      .nilDeref
  ∧ ((Res.nilDeref : Res (List ℕ)) ≠ .err .noBackend) := by
  exact ⟨rfl, by decide⟩

/-- C2 (amended): `Revoke`, `RevokeN` and `List` return `NoBackend` when
the backend handle is absent, and a Store without a serializer returns
`NoSerializer` from `Issue` and `Access`; but `Issue` and `Access`
themselves perform NO backend check (see the counterexample: with a
serializer and no backend they reach the nil handle instead of returning
`NoBackend`). -/
theorem claimC2_misconfiguration_errors (st : Store) :
    (st.redis = none →
      (∀ t, (st.Revoke t).1 = .err .noBackend)
    ∧ (∀ ts, (st.RevokeN ts).1 = (0, some .noBackend))
    ∧ (∀ t, st.List t = .err .noBackend))
  ∧ (st.serlr = none →
      (∀ pip uap fid nowNs sub exp a b c d,
        (st.Issue pip uap fid nowNs sub exp a b c d).1 = .err .noSerializer)
    ∧ (∀ pip uap nowSec s a b c d,
        (st.Access pip uap nowSec s a b c d).1 = .err .noSerializer)) := by
  constructor
  · intro h
    refine ⟨?_, ?_, ?_⟩ <;> intros <;> simp [Store.Revoke, Store.RevokeN, Store.List, h]
  · intro h
    constructor <;> intros <;> simp [Store.Issue, Store.Access, h]

/-- Witness for C2 (amended) on the backend-less, serializer-less store
returned by `NewStore(nil, nil)`. -/
theorem claimC2_misconfiguration_errors_witness :
    ((NewStore none none []).Revoke none).1 = .err .noBackend
  ∧ ((NewStore none none []).RevokeN []).1 = (0, some .noBackend)
  ∧ (NewStore none none []).List none = .err .noBackend
  ∧ ((NewStore none none []).Issue (fun _ => none) (fun _ => none) [] 0 [] 0 [] [] [] []).1 =
      .err .noSerializer
  ∧ ((NewStore none none []).Access (fun _ => none) (fun _ => none) 0 [] [] [] [] []).1 =
      .err .noSerializer := by
  refine ⟨((claimC2_misconfiguration_errors (NewStore none none [])).1 rfl).1 none,
    ((claimC2_misconfiguration_errors (NewStore none none [])).1 rfl).2.1 [],
    ((claimC2_misconfiguration_errors (NewStore none none [])).1 rfl).2.2 none,
    ((claimC2_misconfiguration_errors (NewStore none none [])).2 rfl).1
      (fun _ => none) (fun _ => none) [] 0 [] 0 [] [] [] [],
    ((claimC2_misconfiguration_errors (NewStore none none [])).2 rfl).2
      (fun _ => none) (fun _ => none) 0 [] [] [] [] []⟩

set_option maxHeartbeats 2000000 in
/-- C5: `validate(t, nbfCheck)` returns an error exactly when at least
one field rule fails, accumulating one reason string per failing rule; the
returned error's `expired` flag is set iff `Expires ≠ 0 ∧ Expires < now + 5`
and its `not_before_violated` flag iff
`nbfCheck ∧ NotBefore ≠ 0 ∧ NotBefore > now − 5`. -/
theorem claimC5_validate_flags (t : Token) (b : Bool) (now : ℤ) :
    ((t.validate b now).isSome ↔
      (t.Id = zeroUUID ∨ t.Subject = zeroUUID ∨ t.Issued = 0 ∨ t.Issued > now ∨
       (t.Expires ≠ 0 ∧ t.Expires < now + 5) ∨
       (b = true ∧ t.NotBefore ≠ 0 ∧ t.NotBefore > now - 5)))
  ∧ (∀ ve, t.validate b now = some ve →
      ((ve.exp = true ↔ (t.Expires ≠ 0 ∧ t.Expires < now + 5))
     ∧ (ve.nbf = true ↔ (b = true ∧ t.NotBefore ≠ 0 ∧ t.NotBefore > now - 5))
     ∧ ve.errstrs.length =
         ((if t.Id = zeroUUID then 1 else 0) + (if t.Subject = zeroUUID then 1 else 0) +
          (if t.Issued = 0 then 1 else if t.Issued > now then 1 else 0) +
          (if t.Expires ≠ 0 ∧ t.Expires < now + 5 then 1 else 0) +
          (if b = true ∧ t.NotBefore ≠ 0 ∧ t.NotBefore > now - 5 then 1 else 0)))) := by
  unfold Token.validate
  dsimp only
  split_ifs with h1 h2 h3 h4 h5 h6 <;> simp_all <;> omega

theorem bLookup_bHMSet_fresh (bk : Backend) (k a b c : List ℕ)
    (h : bLookup bk k = none) :
    bLookup (bHMSet bk k a b c) k = some ⟨a, b, c, none⟩ := by
  have hf : bk.find? (fun e => e.1 = k) = none := by
    cases hf : bk.find? (fun e => e.1 = k) with
    | none => rfl
    | some e =>
        unfold bLookup at h
        rw [hf] at h
        simp at h
  unfold bHMSet
  rw [h]
  unfold bLookup
  rw [List.find?_append, hf]
  simp [List.find?]

theorem bLookup_bExpireAt (bk : Backend) (k : List ℕ) (ts : ℤ) :
    bLookup (bExpireAt bk k ts) k =
      (bLookup bk k).map fun r => { r with expAt := some ts } := by
  unfold bExpireAt bLookup
  induction bk with
  | nil => rfl
  | cons e rest ih =>
      by_cases h : e.1 = k
      · simp [List.find?, h]
      · simp only [List.map_cons, List.find?, if_neg h, decide_eq_false h]
        exact ih

/-- C6: an `Issue` exp-duration of zero is replaced by the Store default
(72 hours for a `NewStore`); the sentinel `-1` normalizes to a token with
no expiry (`Expires = 0`); `Issue` serializes and registers the token
built from the normalized duration; and the freshly persisted record gets
expire-at `Expires + 5` exactly when `Expires ≠ 0` and no expiry
otherwise. -/
theorem claimC6_issue_expiry :
    (∀ (st : Store) pip uap fid nowNs sub a b c d,
       Store.Issue st pip uap fid nowNs sub 0 a b c d =
         Store.Issue st pip uap fid nowNs sub st.DefaultExp a b c d)
  ∧ (∀ cl sr ns, (NewStore cl sr ns).DefaultExp = 72 * 3600 * 1000000000)
  ∧ (∀ (st : Store) (sub fid : List ℕ) (nowNs : ℤ),
      (TokenNew sub st.Issuer st.Audience
        (if (if (-1 : ℤ) = 0 then st.DefaultExp else -1) = -1 then 0
         else (if (-1 : ℤ) = 0 then st.DefaultExp else -1)) fid nowNs).Expires = 0)
  ∧ (∀ (st : Store) (sr : Serlr) pip uap fid nowNs sub exp, st.serlr = some sr →
      Store.Issue st pip uap fid nowNs sub exp [] [] [] [] =
        (let t := TokenNew sub st.Issuer st.Audience
           (if (if exp = 0 then st.DefaultExp else exp) = -1 then 0
            else (if exp = 0 then st.DefaultExp else exp)) fid nowNs
         match st.registerToken t (nowNs / 1000000000) with
         | (.ok _, st') => (.ok (sr.serialize (some t)), st')
         | (.err e, st') => (.err e, st')
         | (.nilDeref, st') => (.nilDeref, st')))
  ∧ (∀ (st : Store) (bk : Backend) (t : Token) (nowSec : ℤ), st.redis = some bk →
      t.validate false nowSec = none →
      bLookup bk (st.makeStorageKey (some t) false) = none →
      ∀ r, (st.registerToken t nowSec).2.redis = some r →
        bLookup r (st.makeStorageKey (some t) false) =
          some ⟨(Store.encStorageData (some t)).1, (Store.encStorageData (some t)).2.1,
                (Store.encStorageData (some t)).2.2,
                if t.Expires ≠ 0 then some (t.Expires + 5) else none⟩) := by
  refine ⟨?_, ?_, ?_, ?_, ?_⟩
  · intro st pip uap fid nowNs sub a b c d
    unfold Store.Issue
    cases st.serlr with
    | none => rfl
    | some sr =>
        dsimp only
        by_cases h : st.DefaultExp = 0
        · simp [h]
        · simp [h]
  · intro cl sr ns
    rfl
  · intro st sub fid nowNs
    norm_num [TokenNew]
  · intro st sr pip uap fid nowNs sub exp hs
    unfold Store.Issue
    rw [hs]
    dsimp only
    norm_num
  · intro st bk t nowSec hr hval hfresh r hrr
    unfold Store.registerToken at hrr
    rw [hval] at hrr
    dsimp only at hrr
    rw [hr] at hrr
    dsimp only at hrr
    by_cases hexp : t.Expires ≠ 0
    · rw [if_pos hexp] at hrr
      simp only [Option.some.injEq] at hrr
      subst hrr
      rw [if_pos hexp, bLookup_bExpireAt,
        bLookup_bHMSet_fresh bk _ _ _ _ hfresh]
      rfl
    · rw [if_neg hexp] at hrr
      simp only [Option.some.injEq] at hrr
      subst hrr
      rw [if_neg hexp, bLookup_bHMSet_fresh bk _ _ _ _ hfresh]

/-- A store with an empty connected backend and the no-signature
serializer, and a token it issues (1-hour expiry), used as witnesses. -/
def stC6 : Store := NewStore (some []) (some signNoneSerlr) []

/-- Witness subject UUID bytes. -/
def subC6 : List ℕ := List.replicate 16 1

/-- Witness fresh token id bytes. -/
def fidC6 : List ℕ := List.replicate 16 2

/-- The token `Issue` builds for the witness call. -/
def tC6 : Token := TokenNew subC6 [] [] 3600000000000 fidC6 1000000000000

set_option maxRecDepth 20000 in
/-- Witness for C6 at concrete inputs: the issue pipeline equation at a
1-hour expiry, and the freshly persisted record carrying expire-at
`Expires + 5`. -/
theorem claimC6_issue_expiry_witness :
    Store.Issue stC6 (fun _ => none) (fun _ => none) fidC6 1000000000000 subC6
        3600000000000 [] [] [] [] =
      (let t := TokenNew subC6 stC6.Issuer stC6.Audience
         (if (if (3600000000000 : ℤ) = 0 then stC6.DefaultExp else 3600000000000) = -1 then 0
          else (if (3600000000000 : ℤ) = 0 then stC6.DefaultExp else 3600000000000))
         fidC6 1000000000000
       match stC6.registerToken t (1000000000000 / 1000000000) with
       | (.ok _, st') => (.ok (signNoneSerlr.serialize (some t)), st')
       | (.err e, st') => (.err e, st')
       | (.nilDeref, st') => (.nilDeref, st'))
  ∧ bLookup ((stC6.registerToken tC6 1000).2.redis.getD [])
      (stC6.makeStorageKey (some tC6) false) =
      some ⟨(Store.encStorageData (some tC6)).1, (Store.encStorageData (some tC6)).2.1,
            (Store.encStorageData (some tC6)).2.2,
            if tC6.Expires ≠ 0 then some (tC6.Expires + 5) else none⟩ := by
  constructor
  · exact claimC6_issue_expiry.2.2.2.1 stC6 signNoneSerlr (fun _ => none) (fun _ => none)
      fidC6 1000000000000 subC6 3600000000000 rfl
  · exact claimC6_issue_expiry.2.2.2.2 stC6 [] tC6 1000 rfl rfl rfl
      ((stC6.registerToken tC6 1000).2.redis.getD []) rfl

theorem encTokenBytes_some_head (t : Token) :
    ∃ n l, encTokenBytes (some t) = (128 + n) :: l ∧ n ≤ 7 := by
  unfold encTokenBytes encMP ITokenMP
  dsimp only
  split_ifs <;> exact ⟨_, _, rfl, by simp⟩

theorem b64encode_ne_nil (l : List ℕ) (h : l ≠ []) : b64encode l ≠ [] := by
  cases l with
  | nil => exact absurd rfl h
  | cons a l2 =>
      cases l2 with
      | nil => simp [b64encode]
      | cons b l3 =>
          cases l3 with
          | nil => simp [b64encode]
          | cons c rest => simp [b64encode]

/-- C8: for every well-formed token T (and for nil), decoding the three
storage strings produced by encoding T reconstructs T with both footprint
slots restored; a nil T encodes as three single-byte `0xC0` fields and
those decode back to a nil token. -/
theorem claimC8_storage_roundtrip :
    (Store.encStorageData none = ([0xC0], [0xC0], [0xC0])
      ∧ Store.decStorageData [0xC0] [0xC0] [0xC0] = .ok none)
  ∧ ∀ t : Token, t.wfEnc →
      Store.decStorageData (Store.encStorageData (some t)).1
        (Store.encStorageData (some t)).2.1 (Store.encStorageData (some t)).2.2 =
        .ok (some t) := by
  refine ⟨⟨rfl, rfl⟩, ?_⟩
  intro t h
  obtain ⟨n, l, he, hn⟩ := encTokenBytes_some_head t
  have hne : ¬(encTokenBytes (some t) = [] ∨ encTokenBytes (some t) = [0xC0]) := by
    rw [he]
    push_neg
    refine ⟨List.cons_ne_nil _ _, ?_⟩
    intro hc
    rw [List.cons.injEq] at hc
    exact absurd hc.1 (by omega)
  unfold Store.encStorageData Store.decStorageData
  dsimp only
  rw [if_neg hne, tokenBytes_roundtrip t h]
  dsimp only
  rw [fpBytes_roundtrip t.fpi h.2.2.2.2.2.2.2.2.2.2.2.2.1,
    fpBytes_roundtrip t.fpc h.2.2.2.2.2.2.2.2.2.2.2.2.2]

/-- The witness footprint: one of everything (address, referer, origin,
parsed UA, OS and device records). -/
def fpC8 : Footprint :=
  { Timestamp := 500
    RemoteAddr := [10, 0, 0, 1]
    Referer := [114]
    Origin := [111]
    UserAgent := some ⟨[70], [49], [50], [51]⟩
    Os := some ⟨[79], [49], [50], [51], [52]⟩
    Device := some ⟨[66], [70], [77]⟩ }

/-- The witness token: all fields populated, issue footprint present. -/
def tC8 : Token :=
  { Id := List.replicate 16 3
    Subject := List.replicate 16 4
    Issuer := [105]
    Audience := [[97], [98]]
    Issued := 900
    NotBefore := 10
    Expires := 2000
    fpi := some fpC8
    fpc := none }

instance footprintWfEncDecidable (fp : Footprint) : Decidable fp.wfEnc := by
  obtain ⟨ts, adr, ref, org, ua, os, dv⟩ := fp
  unfold Footprint.wfEnc i64 strB
  cases ua <;> cases os <;> cases dv <;> dsimp only <;> exact inferInstance

instance tokenWfEncDecidable (t : Token) : Decidable t.wfEnc := by
  obtain ⟨i, s, iss, aud, ia, nb, ex, fpi, fpc⟩ := t
  unfold Token.wfEnc i64 strB
  cases fpi <;> cases fpc <;> dsimp only <;> exact inferInstance

set_option maxRecDepth 20000 in
/-- Witness for C8 at a fully populated concrete token. -/
theorem claimC8_storage_roundtrip_witness :
    Store.decStorageData (Store.encStorageData (some tC8)).1
      (Store.encStorageData (some tC8)).2.1 (Store.encStorageData (some tC8)).2.2 =
      .ok (some tC8) :=
  claimC8_storage_roundtrip.2 tC8 (by decide)

theorem toInternal_strB (t : Token) (h : t.wfEnc) :
    strB t.toInternal.Id ∧ strB t.toInternal.Subject ∧
    strB t.toInternal.Issuer ∧ strB t.toInternal.Audience := by
  obtain ⟨q1, q2, q3, q4, q5, q6, q7, q8, q9, q10, q11, q12, q13, q14⟩ := h
  unfold Token.toInternal
  dsimp only
  refine ⟨?_, ?_, q5, ?_⟩
  · split_ifs with hz
    · intro x hx
      simp at hx
    · exact q2
  · split_ifs with hz
    · intro x hx
      simp at hx
    · exact q4
  · exact joinNul_strB _ fun a ha => (q8 a ha).2

/-- C9: for every well-formed token T with no footprints (the string form
never carries them), deserializing the no-signature serialization of T
yields T itself. -/
theorem claimC9_serializer_roundtrip (t : Token) (h : t.wfEnc)
    (hfi : t.fpi = none) (hfc : t.fpc = none) :
    genericDeserialize none (genericSerialize none (some t)) = .ok (some t) := by
  have hw1 : t.toInternal.Id.length < 2 ^ 32 := by
    have h1 := h.1
    unfold Token.toInternal
    dsimp only
    split_ifs <;> simp <;> omega
  have hw2 : t.toInternal.Subject.length < 2 ^ 32 := by
    have h3 := h.2.2.1
    unfold Token.toInternal
    dsimp only
    split_ifs <;> simp <;> omega
  obtain ⟨hb1, hb2, hb3, hb4⟩ := toInternal_strB t h
  have hblt : ∀ x ∈ encTokenBytes (some t), x < 256 := by
    unfold encTokenBytes
    exact encMP_lt _ (ITokenMP_bytesLT _ hb1 hb2 hb3 hb4)
      (ITokenMP_wf _ hw1 hw2 h.2.2.2.2.2.1 h.2.2.2.2.2.2.2.2.1
        h.2.2.2.2.2.2.2.2.2.1 h.2.2.2.2.2.2.2.2.2.2.1 h.2.2.2.2.2.2.2.2.2.2.2.1)
  have hdecb := b64_roundtrip _ hblt
  obtain ⟨n, l, he, hn⟩ := encTokenBytes_some_head t
  have henc_ne : encTokenBytes (some t) ≠ [] := by
    rw [he]
    exact List.cons_ne_nil _ _
  have hb64_ne : b64encode (encTokenBytes (some t)) ≠ [] := b64encode_ne_nil _ henc_ne
  unfold genericSerialize
  dsimp only
  rw [List.append_nil]
  unfold genericDeserialize
  rw [if_neg ?hpre]
  case hpre =>
    push_neg
    constructor
    · rw [List.length_append, show header.length = 5 from rfl]
      have := List.length_pos.mpr hb64_ne
      omega
    · rw [show (5 : ℕ) = header.length from rfl, List.take_left]
  dsimp only
  rw [show (header ++ b64encode (encTokenBytes (some t))).drop 5 =
      b64encode (encTokenBytes (some t)) from by
    rw [show (5 : ℕ) = header.length from rfl, List.drop_left]]
  rw [hdecb]
  dsimp only
  rw [tokenBytes_roundtrip t h]
  dsimp only
  obtain ⟨ti, ts, tis, ta, tia, tn, te, tfi, tfc⟩ := t
  simp only at hfi hfc
  subst hfi
  subst hfc
  rfl

/-- The C9 witness token: populated public fields, no footprints. -/
def tC9 : Token :=
  { Id := List.replicate 16 5
    Subject := List.replicate 16 6
    Issuer := [105, 115]
    Audience := [[97], [98, 99]]
    Issued := 901
    NotBefore := 11
    Expires := 2001
    fpi := none
    fpc := none }

set_option maxRecDepth 20000 in
/-- Witness for C9 at a concrete token. -/
theorem claimC9_serializer_roundtrip_witness :
    genericDeserialize none (genericSerialize none (some tC9)) = .ok (some tC9) :=
  claimC9_serializer_roundtrip tC9 (by decide) rfl rfl

/-- The C5 witness token: expired (at `now = 1000`) and inside its
not-before window. -/
def tC5 : Token :=
  { Id := List.replicate 16 7
    Subject := List.replicate 16 8
    Issuer := []
    Audience := []
    Issued := 900
    NotBefore := 999
    Expires := 100
    fpi := none
    fpc := none }

/-- Witness for C5 at a concrete expired/not-before-violating token. -/
theorem claimC5_validate_flags_witness :
    ((tC5.validate true 1000).isSome ↔
      (tC5.Id = zeroUUID ∨ tC5.Subject = zeroUUID ∨ tC5.Issued = 0 ∨ tC5.Issued > 1000 ∨
       (tC5.Expires ≠ 0 ∧ tC5.Expires < 1000 + 5) ∨
       (true = true ∧ tC5.NotBefore ≠ 0 ∧ tC5.NotBefore > 1000 - 5)))
  ∧ (((tC5.validate true 1000).getD ⟨[], false, false⟩).exp = true ↔
      (tC5.Expires ≠ 0 ∧ tC5.Expires < 1000 + 5))
  ∧ (((tC5.validate true 1000).getD ⟨[], false, false⟩).nbf = true ↔
      (true = true ∧ tC5.NotBefore ≠ 0 ∧ tC5.NotBefore > 1000 - 5)) := by
  have h := claimC5_validate_flags tC5 true 1000
  exact ⟨h.1, (h.2 ((tC5.validate true 1000).getD ⟨[], false, false⟩) rfl).1,
    (h.2 ((tC5.validate true 1000).getD ⟨[], false, false⟩) rfl).2.1⟩
